import Mathlib

set_option maxRecDepth 100000

/-!
Verification of the temporal snapshot-versioning and identity-resolution
engine of the welding-registry repository.

The definitions below are a shallow embedding of the Python sources:
  * `src/welding_registry/normalize.py`  (name_key)
  * `src/welding_registry/versioned.py`  (normalization, record keys,
    content hashing, snapshot ingestion, interval open/close, as-of
    queries, snapshot diffing)
  * `src/welding_registry/warehouse.py`  (the sort / dedupe / field-level
    fallback kernel of `materialize_roster_all`)

Machine representation choices: calendar dates are integers (days);
DuckDB tables are Lean lists of structures; `nextval` sequences are `Nat`
counters in the store; pandas string cells are `Option String` (NaN is
`none`).  SHA-256 is implemented executably over byte lists so that
content hashes can be evaluated on concrete inputs.
-/

namespace Welding

/-! ### Python string primitives -/

/-- Characters treated as whitespace by Python's `str.strip` / `\s`
(ASCII whitespace plus the ideographic space that occurs in the data). -/
def isPySpace (c : Char) : Bool :=
  c = ' ' || c = '\t' || c = '\n' || c = '\r' || c.toNat = 11 || c.toNat = 12 ||
    c.toNat = 0x3000

/-- Python `str.strip()`: drop leading and trailing whitespace. -/
def pyStrip (s : String) : String :=
  String.mk (((s.data.dropWhile isPySpace).reverse.dropWhile isPySpace).reverse)

/-- Python `str.lower()` (ASCII case folding suffices for the data handled). -/
def pyLower (s : String) : String := String.mk (s.data.map Char.toLower)

/-- One character of `unicodedata.normalize("NFKC", ·)` restricted to the
width folding relevant here: full-width ASCII forms U+FF01..U+FF5E fold to
ASCII, the ideographic space folds to a plain space; identity elsewhere. -/
def nfkcChar (c : Char) : Char :=
  if 0xFF01 ≤ c.toNat ∧ c.toNat ≤ 0xFF5E then Char.ofNat (c.toNat - 0xFEE0)
  else if c.toNat = 0x3000 then ' ' else c

/-- `normalize.name_key` on a plain string: NFKC-fold, then remove all
whitespace (`re.sub(r"\s+", "", t)`). -/
def nameKeyStr (s : String) : String :=
  String.mk ((s.data.map nfkcChar).filter (fun c => !isPySpace c))

/-- `normalize.name_key`: `None` becomes the empty key. -/
def nameKey (s : Option String) : String :=
  match s with
  | none => ""
  | some t => nameKeyStr t

/-! ### Executable comparators

The Python/pandas/SQL layers sort strings by code point.  Mathlib's
`String` order is not kernel-reducible, so the embedding carries its own
executable lexicographic comparators, packaged as `Ordering`-valued
functions with `Batteries.TransCmp` instances. -/

/-- Code-point comparison of two characters. -/
def charCmp (a b : Char) : Ordering :=
  if a.toNat < b.toNat then .lt else if b.toNat < a.toNat then .gt else .eq

/-- Lexicographic comparison of two character lists. -/
def charsCmp : List Char → List Char → Ordering
  | [], [] => .eq
  | [], _ :: _ => .lt
  | _ :: _, [] => .gt
  | a :: as, b :: bs =>
      if a.toNat < b.toNat then .lt
      else if b.toNat < a.toNat then .gt
      else charsCmp as bs

/-- Code-point lexicographic comparison of strings (Python's `<`). -/
def strCmp (a b : String) : Ordering := charsCmp a.data b.data

/-- String comparison with SQL null sorting last. -/
def optStrCmp : Option String → Option String → Ordering
  | none, none => .eq
  | none, some _ => .gt
  | some _, none => .lt
  | some a, some b => strCmp a b

/-- Comparison on `Nat`. -/
def natCmpO (a b : Nat) : Ordering :=
  if a < b then .lt else if b < a then .gt else .eq

/-- Comparison on `Int`. -/
def intCmpO (a b : Int) : Ordering :=
  if a < b then .lt else if b < a then .gt else .eq

/-- The non-strict relation induced by a comparator. -/
def cmpLe (cmp : α → α → Ordering) (x y : α) : Prop := cmp x y ≠ .gt

instance (cmp : α → α → Ordering) : DecidableRel (cmpLe cmp) := fun x y =>
  inferInstanceAs (Decidable (cmp x y ≠ .gt))


/-! ### Normalized snapshot records (`versioned._normalize_snapshot_df`) -/

/-- One row of a snapshot dataframe restricted to the canonical columns
(`CANON_COLS`).  Dates are day numbers; string cells are `none` when NaN. -/
structure Rec where
  name : Option String
  license_no : Option String
  qualification : Option String
  category : Option String
  first_issue_date : Option Int
  issue_date : Option Int
  expiry_date : Option Int
deriving DecidableEq, Repr

/-- The string-cell normalization of `_normalize_snapshot_df`:
`None if (pd.isna(x) or str(x).strip() == "") else str(x).strip()`. -/
def normStr (x : Option String) : Option String :=
  match x with
  | none => none
  | some s => let t := pyStrip s; if t = "" then none else some t

/-- Per-row part of `_normalize_snapshot_df`: strip the four string
columns (dates are already coerced upstream by `pd.to_datetime`). -/
def normalizeRow (r : Rec) : Rec :=
  { r with
    name := normStr r.name
    license_no := normStr r.license_no
    qualification := normStr r.qualification
    category := normStr r.category }

/-- Row filter of `_normalize_snapshot_df`: drop rows where name,
license_no and qualification are all empty. -/
def keepRow (r : Rec) : Bool :=
  !(r.name = none && r.license_no = none && r.qualification = none)

/-- `versioned._normalize_snapshot_df` on the canonical columns. -/
def normalizeSnapshot (df : List Rec) : List Rec :=
  (df.map normalizeRow).filter keepRow

/-- `versioned._record_key`:
`name_key(str(name or "")) + "|" + str(license or "").strip().lower() + "|"
+ str(qualification or "").strip().lower()`. -/
def recordKey (r : Rec) : String :=
  nameKeyStr (r.name.getD "") ++ "|" ++ pyLower (pyStrip (r.license_no.getD "")) ++ "|" ++
    pyLower (pyStrip (r.qualification.getD ""))

/-! ### ISO date rendering (how `datetime.date` cells print in CSV) -/

/-- Convert a day number (days since 1970-01-01) to a civil
(year, month, day) triple; the standard Gregorian algorithm. -/
def civilFromDays (z0 : Int) : Int × Nat × Nat :=
  let z : Int := z0 + 719468
  let era : Int := (if 0 ≤ z then z else z - 146096) / 146097
  let doe : Nat := (z - era * 146097).toNat
  let yoe : Nat := (doe - doe / 1460 + doe / 36524 - doe / 146096) / 365
  let y : Int := (yoe : Int) + era * 400
  let doy : Nat := doe - (365 * yoe + yoe / 4 - yoe / 100)
  let mp : Nat := (5 * doy + 2) / 153
  let d : Nat := doy - (153 * mp + 2) / 5 + 1
  let m : Nat := if mp < 10 then mp + 3 else mp - 9
  (y + (if m ≤ 2 then 1 else 0), m, d)

/-- Zero-pad a natural number to at least `w` digits. -/
def padNat (w : Nat) (n : Nat) : String :=
  let s := toString n
  let l := s.length
  (String.mk (List.replicate (w - l) '0')) ++ s

/-- `str(datetime.date(...))`: ISO `YYYY-MM-DD` rendering of a day number. -/
def dateISO (z : Int) : String :=
  let c := civilFromDays z
  (if c.1 < 0 then "-" ++ padNat 4 (-c.1).toNat else padNat 4 c.1.toNat) ++ "-" ++
    padNat 2 c.2.1 ++ "-" ++ padNat 2 c.2.2

/-! ### CSV serialization (`DataFrame.to_csv(index=False)`) -/

/-- Quote one CSV cell the way the csv module does with QUOTE_MINIMAL:
wrap in double quotes (doubling inner quotes) only when the cell contains
a comma, a double quote or a line break. -/
def csvCell (s : String) : String :=
  if s.data.any (fun c => c = ',' || c = '"' || c = '\n' || c = '\r') then
    "\"" ++ String.mk (s.data.foldr (fun c acc => if c = '"' then '"' :: '"' :: acc else c :: acc) []) ++ "\""
  else s

/-- A NaN / `None` string cell prints as the empty field. -/
def cellStr (x : Option String) : String :=
  match x with
  | none => ""
  | some s => s

/-- A NaT / `None` date cell prints as the empty field, otherwise ISO. -/
def cellDate (x : Option Int) : String :=
  match x with
  | none => ""
  | some d => dateISO d

/-- One CSV line for a keyed record, columns
`_rec_key, name, license_no, qualification, category, first_issue_date,
issue_date, expiry_date` (the order used by `_content_hash`). -/
def rowCsv (k : String) (r : Rec) : String :=
  String.intercalate ","
      ([k, cellStr r.name, cellStr r.license_no, cellStr r.qualification,
        cellStr r.category, cellDate r.first_issue_date, cellDate r.issue_date,
        cellDate r.expiry_date].map csvCell) ++ "\n"

/-- The CSV header produced by `to_csv` for the hashed frame. -/
def headerCsv : String :=
  "_rec_key,name,license_no,qualification,category,first_issue_date,issue_date,expiry_date\n"

/-! ### SHA-256 (executable, used by `versioned._content_hash`) -/

/-- UTF-8 bytes of one character. -/
def utf8Char (c : Char) : List Nat :=
  let n := c.toNat
  if n < 0x80 then [n]
  else if n < 0x800 then [0xC0 + n / 0x40, 0x80 + n % 0x40]
  else if n < 0x10000 then
    [0xE0 + n / 0x1000, 0x80 + (n / 0x40) % 0x40, 0x80 + n % 0x40]
  else
    [0xF0 + n / 0x40000, 0x80 + (n / 0x1000) % 0x40, 0x80 + (n / 0x40) % 0x40,
     0x80 + n % 0x40]

/-- UTF-8 encoding of a string (Python's `.encode("utf-8")`). -/
def utf8Bytes (s : String) : List Nat :=
  (s.data.map utf8Char).flatten

def M32 : Nat := 4294967296

/-- Rotate a 32-bit word right by `n`. -/
def rotr32 (n x : Nat) : Nat := ((x >>> n) ||| (x <<< (32 - n))) % M32

/-- Bitwise complement within 32 bits. -/
def not32 (x : Nat) : Nat := Nat.xor x (M32 - 1)

def shaCh (x y z : Nat) : Nat := Nat.xor (Nat.land x y) (Nat.land (not32 x) z)

def shaMaj (x y z : Nat) : Nat :=
  Nat.xor (Nat.xor (Nat.land x y) (Nat.land x z)) (Nat.land y z)

def bsig0 (x : Nat) : Nat := Nat.xor (Nat.xor (rotr32 2 x) (rotr32 13 x)) (rotr32 22 x)
def bsig1 (x : Nat) : Nat := Nat.xor (Nat.xor (rotr32 6 x) (rotr32 11 x)) (rotr32 25 x)
def ssig0 (x : Nat) : Nat := Nat.xor (Nat.xor (rotr32 7 x) (rotr32 18 x)) (x >>> 3)
def ssig1 (x : Nat) : Nat := Nat.xor (Nat.xor (rotr32 17 x) (rotr32 19 x)) (x >>> 10)

/-- The SHA-256 round constants. -/
def shaK : List Nat :=
  [1116352408, 1899447441, 3049323471, 3921009573, 961987163,
   1508970993, 2453635748, 2870763221, 3624381080, 310598401,
   607225278, 1426881987, 1925078388, 2162078206, 2614888103,
   3248222580, 3835390401, 4022224774, 264347078, 604807628,
   770255983, 1249150122, 1555081692, 1996064986, 2554220882,
   2821834349, 2952996808, 3210313671, 3336571891, 3584528711,
   113926993, 338241895, 666307205, 773529912, 1294757372,
   1396182291, 1695183700, 1986661051, 2177026350, 2456956037,
   2730485921, 2820302411, 3259730800, 3345764771, 3516065817,
   3600352804, 4094571909, 275423344, 430227734, 506948616,
   659060556, 883997877, 958139571, 1322822218, 1537002063,
   1747873779, 1955562222, 2024104815, 2227730452, 2361852424,
   2428436474, 2756734187, 3204031479, 3329325298]

/-- The SHA-256 initial hash value. -/
def shaH0 : Nat × Nat × Nat × Nat × Nat × Nat × Nat × Nat :=
  (1779033703, 3144134277, 1013904242, 2773480762,
   1359893119, 2600822924, 528734635, 1541459225)

/-- Pad a message to a multiple of 64 bytes (`0x80`, zeros, 64-bit length). -/
def shaPad (msg : List Nat) : List Nat :=
  let L := msg.length
  let bits := L * 8
  let zeros := (64 - (L + 9) % 64) % 64
  msg ++ [0x80] ++ List.replicate zeros 0 ++
    (List.range 8).map (fun i => (bits >>> ((7 - i) * 8)) % 256)

/-- Split a byte list into big-endian 32-bit words. -/
def toWords : List Nat → List Nat
  | b0 :: b1 :: b2 :: b3 :: rest =>
      (b0 * 0x1000000 + b1 * 0x10000 + b2 * 0x100 + b3) :: toWords rest
  | _ => []

/-- Extend the 16 block words to the 64-entry message schedule. -/
def shaSchedule (w16 : List Nat) : List Nat :=
  (List.range 48).foldl
    (fun w _ =>
      let n := w.length
      w ++ [(ssig1 (w.getD (n - 2) 0) + w.getD (n - 7) 0 + ssig0 (w.getD (n - 15) 0) +
             w.getD (n - 16) 0) % M32])
    w16

/-- One SHA-256 round. -/
def shaRound (k w : Nat) (s : Nat × Nat × Nat × Nat × Nat × Nat × Nat × Nat) :
    Nat × Nat × Nat × Nat × Nat × Nat × Nat × Nat :=
  let (a, b, c, d, e, f, g, h) := s
  let t1 := (h + bsig1 e + shaCh e f g + k + w) % M32
  let t2 := (bsig0 a + shaMaj a b c) % M32
  ((t1 + t2) % M32, a, b, c, (d + t1) % M32, e, f, g)

/-- Compress one 64-byte block into the running hash state. -/
def shaCompress (s : Nat × Nat × Nat × Nat × Nat × Nat × Nat × Nat)
    (block : List Nat) : Nat × Nat × Nat × Nat × Nat × Nat × Nat × Nat :=
  let ws := shaSchedule (toWords block)
  let r := (shaK.zip ws).foldl (fun st p => shaRound p.1 p.2 st) s
  ((s.1 + r.1) % M32, (s.2.1 + r.2.1) % M32, (s.2.2.1 + r.2.2.1) % M32,
   (s.2.2.2.1 + r.2.2.2.1) % M32, (s.2.2.2.2.1 + r.2.2.2.2.1) % M32,
   (s.2.2.2.2.2.1 + r.2.2.2.2.2.1) % M32,
   (s.2.2.2.2.2.2.1 + r.2.2.2.2.2.2.1) % M32,
   (s.2.2.2.2.2.2.2 + r.2.2.2.2.2.2.2) % M32)

/-- Split a padded message into 64-byte blocks (fuel-based recursion). -/
def chunks64 : Nat → List Nat → List (List Nat)
  | 0, _ => []
  | _, [] => []
  | fuel + 1, l => l.take 64 :: chunks64 fuel (l.drop 64)

/-- Big-endian bytes of a 32-bit word. -/
def wordBytes (x : Nat) : List Nat :=
  [x / 0x1000000 % 256, x / 0x10000 % 256, x / 0x100 % 256, x % 256]

/-- SHA-256 digest (32 bytes) of a byte list. -/
def sha256Bytes (msg : List Nat) : List Nat :=
  let padded := shaPad msg
  let s := (chunks64 (padded.length) padded).foldl shaCompress shaH0
  ([s.1, s.2.1, s.2.2.1, s.2.2.2.1, s.2.2.2.2.1, s.2.2.2.2.2.1,
    s.2.2.2.2.2.2.1, s.2.2.2.2.2.2.2].map wordBytes).flatten

def hexDigit (n : Nat) : Char :=
  if n < 10 then Char.ofNat ('0'.toNat + n) else Char.ofNat ('a'.toNat + n - 10)

/-- Lower-case hex rendering of a byte. -/
def byteHex (b : Nat) : String := String.mk [hexDigit (b / 16), hexDigit (b % 16)]

/-- `hashlib.sha256(blob).hexdigest()` for a UTF-8 string blob. -/
def sha256Hex (s : String) : String :=
  String.join ((sha256Bytes (utf8Bytes s)).map byteHex)

/-! ### `versioned._content_hash` -/

/-- Key-only comparison used to sort the hashed frame by `_rec_key`
(`sort_values("_rec_key", kind="stable")`). -/
def keyLe : String × Rec → String × Rec → Prop :=
  cmpLe (Ordering.byKey Prod.fst strCmp)

instance : DecidableRel keyLe := fun a b =>
  inferInstanceAs (Decidable (cmpLe (Ordering.byKey Prod.fst strCmp) a b))

/-- `versioned._content_hash`: attach `_rec_key`, stable-sort by it,
serialize to CSV and hash.  (Columns are fixed to the canonical set.) -/
def contentHash (dfn : List Rec) : String :=
  sha256Hex (headerCsv ++
    String.join ((List.insertionSort keyLe (dfn.map (fun r => (recordKey r, r)))).map
      (fun kr => rowCsv kr.1 kr.2)))

/-! ### The DuckDB store (`ver_*` tables) -/

/-- One row of `ver_persons`. -/
structure Person where
  person_id : Nat
  name : String
  name_key : String
deriving DecidableEq, Repr

/-- One row of `ver_assignments`. -/
structure Assignment where
  assign_id : Nat
  person_id : Nat
  rec_key : String
  license_no : Option String
  qualification : Option String
  category : Option String
  first_issue_date : Option Int
  issue_date : Option Int
  expiry_date : Option Int
  valid_from : Int
  valid_to : Option Int
deriving DecidableEq, Repr

/-- One row of `ver_snapshots` (the audit columns the claims mention). -/
structure Snapshot where
  snapshot_id : Nat
  snapshot_date : Int
  content_hash : String
  row_count : Nat
deriving DecidableEq, Repr

/-- One row of `ver_snapshot_records`. -/
structure SnapRecord where
  snapshot_id : Nat
  rec_key : String
  payload : Rec
deriving DecidableEq, Repr

/-- The persisted state: the four tables plus the three sequences. -/
structure Store where
  snapshots : List Snapshot
  persons : List Person
  snapshot_records : List SnapRecord
  assignments : List Assignment
  snapshot_seq : Nat
  person_seq : Nat
  assign_seq : Nat
deriving DecidableEq, Repr

/-- A freshly created database. -/
def emptyStore : Store := ⟨[], [], [], [], 0, 0, 0⟩

/-- `versioned._get_or_create_person`: look a person up by `name_key`,
creating it with the next sequence value when absent. -/
def getOrCreatePerson (st : Store) (nm : String) : Nat × Store :=
  match st.persons.find? (fun p => p.name_key = nameKeyStr nm) with
  | some p => (p.person_id, st)
  | none =>
      let pid := st.person_seq + 1
      (pid, { st with
              person_seq := pid
              persons := st.persons ++ [⟨pid, nm, nameKeyStr nm⟩] })

/-- `versioned._open_assignments_for` restricted to one key: the
`assign_id` of the open assignment carrying `rk` (the dict comprehension
keeps the last scanned row on duplicates). -/
def openAssignFor (assigns : List Assignment) (rk : String) : Option Nat :=
  assigns.foldl
    (fun acc a => if a.valid_to = none ∧ a.rec_key = rk then some a.assign_id else acc)
    none

/-- The `UPDATE ver_assignments SET license_no = ..., expiry_date = ...`
payload overwrite applied on an in-place update. -/
def setPayload (a : Assignment) (r : Rec) : Assignment :=
  { a with
    license_no := r.license_no
    qualification := r.qualification
    category := r.category
    first_issue_date := r.first_issue_date
    issue_date := r.issue_date
    expiry_date := r.expiry_date }

/-- The freshly inserted assignment row for record `r`:
`valid_from = snapshot_date`, `valid_to = NULL`. -/
def newAssign (aid pid : Nat) (r : Rec) (d : Int) : Assignment :=
  ⟨aid, pid, recordKey r, r.license_no, r.qualification, r.category,
   r.first_issue_date, r.issue_date, r.expiry_date, d, none⟩

/-- One iteration of the record loop in `ingest_snapshot_df`: update the
open assignment in place, or buffer a new assignment row (skipping
records with no usable name). -/
def stepRow (openM : String → Option Nat) (d : Int)
    (acc : Store × List Assignment) (r : Rec) : Store × List Assignment :=
  let rk := recordKey r
  match openM rk with
  | some aid =>
      ({ acc.1 with
         assignments :=
           acc.1.assignments.map (fun a => if a.assign_id = aid then setPayload a r else a) },
       acc.2)
  | none =>
      let nm := r.name.getD ""
      if pyStrip nm = "" then acc
      else
        let ps := getOrCreatePerson acc.1 nm
        let aid := ps.2.assign_seq + 1
        ({ ps.2 with assign_seq := aid }, acc.2 ++ [newAssign aid ps.1 r d])

/-- `versioned._close_missing_assignments`: collect the ids of open
assignments whose key is absent from the snapshot, then set their
`valid_to` to the day before the snapshot date. -/
def closeMissing (d : Int) (currentKeys : List String) (st : Store) : Store :=
  let toClose :=
    (st.assignments.filter
        (fun a => a.valid_to = none ∧ ¬ a.rec_key ∈ currentKeys)).map (·.assign_id)
  { st with
    assignments :=
      st.assignments.map
        (fun a => if a.assign_id ∈ toClose then { a with valid_to := some (d - 1) } else a) }

/-- String sort used for `sorted(set(names))`. -/
def sortedNames (l : List String) : List String :=
  List.insertionSort (cmpLe strCmp) l.dedup

/-- The person-upsert loop `for nm in sorted(set(names)): if nm.strip():
_get_or_create_person(con, nm)`. -/
def ensurePersons (names : List String) (st : Store) : Store :=
  names.foldl (fun s nm => if pyStrip nm = "" then s else (getOrCreatePerson s nm).2) st

/-- The store after `_insert_snapshot_meta` and `_write_snapshot_records`. -/
def recordSnapshot (dfn : List Rec) (d : Int) (st : Store) : Store :=
  let sid := st.snapshot_seq + 1
  { st with
    snapshot_seq := sid
    snapshots := st.snapshots ++ [⟨sid, d, contentHash dfn, dfn.length⟩]
    snapshot_records := st.snapshot_records ++ dfn.map (fun r => ⟨sid, recordKey r, r⟩) }

/-- `versioned.ingest_snapshot_df`: normalize, write snapshot meta and
audit records, ensure persons, update / insert assignments, close the
missing ones.  (`ingest_snapshot` performs the same database work after
reading a spreadsheet.) -/
def ingestSnapshotDf (df : List Rec) (d : Int) (st : Store) : Store :=
  let dfn := normalizeSnapshot df
  let st1 := recordSnapshot dfn d st
  let st2 := ensurePersons (sortedNames (dfn.filterMap (·.name))) st1
  let currentKeys := dfn.map recordKey
  let openM : String → Option Nat := fun rk =>
    if rk ∈ currentKeys then openAssignFor st2.assignments rk else none
  let res := dfn.foldl (stepRow openM d) (st2, [])
  closeMissing d currentKeys { res.1 with assignments := res.1.assignments ++ res.2 }

/-! ### `versioned.asof_dataframe` -/

/-- One row of the as-of report. -/
structure AsofRow where
  name : String
  license_no : Option String
  qualification : Option String
  category : Option String
  first_issue_date : Option Int
  issue_date : Option Int
  expiry_date : Option Int
  valid_from : Int
  valid_to : Option Int
deriving DecidableEq, Repr

/-- The projected row for person `p` and assignment `a`. -/
def mkAsofRow (p : Person) (a : Assignment) : AsofRow :=
  ⟨p.name, a.license_no, a.qualification, a.category, a.first_issue_date,
   a.issue_date, a.expiry_date, a.valid_from, a.valid_to⟩

/-- The `WHERE` clause: `valid_from <= d AND (valid_to IS NULL OR valid_to >= d)`. -/
def validOn (a : Assignment) (d : Int) : Prop :=
  a.valid_from ≤ d ∧ (a.valid_to = none ∨ ∃ t, a.valid_to = some t ∧ d ≤ t)

instance : ∀ a d, Decidable (validOn a d) := fun a d => by
  unfold validOn
  exact instDecidableAnd

/-- Comparator realizing `ORDER BY p.name, a.qualification, a.license_no`
(SQL NULLs sorting last). -/
def asofCmp : AsofRow → AsofRow → Ordering :=
  compareLex (Ordering.byKey AsofRow.name strCmp)
    (compareLex (Ordering.byKey AsofRow.qualification optStrCmp)
      (Ordering.byKey AsofRow.license_no optStrCmp))


/-- The row ordering of `asof_dataframe`. -/
def asofLe : AsofRow → AsofRow → Prop := cmpLe asofCmp

instance : DecidableRel asofLe := fun x y =>
  inferInstanceAs (Decidable (cmpLe asofCmp x y))

/-- `versioned.asof_dataframe`: join assignments to persons, filter to
the validity window containing `d`, order by name, qualification,
license number. -/
def asofRows (st : Store) (d : Int) : List AsofRow :=
  let joined :=
    st.assignments.flatMap (fun a =>
      (st.persons.filter (fun p => p.person_id = a.person_id)).map (fun p => (p, a)))
  let rows := (joined.filter (fun pa => validOn pa.2 d)).map (fun pa => mkAsofRow pa.1 pa.2)
  List.insertionSort asofLe rows

/-! ### `versioned.cli_diff` -/

/-- Accumulator keeping the latest-dated snapshot seen so far. -/
def pickLatest (acc : Option Snapshot) (s : Snapshot) : Option Snapshot :=
  match acc with
  | none => some s
  | some b => if b.snapshot_date < s.snapshot_date then some s else acc

/-- `SELECT snapshot_id FROM ver_snapshots WHERE snapshot_date <= ?
ORDER BY snapshot_date DESC LIMIT 1`: the latest snapshot on or before `d`. -/
def snapshotOnOrBefore (st : Store) (d : Int) : Option Nat :=
  ((st.snapshots.filter (fun s => s.snapshot_date ≤ d)).foldl pickLatest none).map
    (·.snapshot_id)

/-- The operator-facing message printed when a base snapshot is missing. -/
def diffNotFoundMsg : String := "Snapshots for the specified dates not found."

/-- `versioned.cli_diff` (read-only): the printed lines and the process
return code. -/
def cliDiff (st : Store) (dateFrom dateTo : Int) : List String × Nat :=
  match snapshotOnOrBefore st dateFrom, snapshotOnOrBefore st dateTo with
  | none, _ => ([diffNotFoundMsg], 2)
  | some _, none => ([diffNotFoundMsg], 2)
  | some sidFrom, some sidTo =>
      let ka :=
        ((st.snapshot_records.filter (fun r => r.snapshot_id = sidFrom)).map (·.rec_key)).dedup
      let kb :=
        ((st.snapshot_records.filter (fun r => r.snapshot_id = sidTo)).map (·.rec_key)).dedup
      let added := List.insertionSort (cmpLe strCmp) (kb.filter (fun k => ¬ k ∈ ka))
      let removed := List.insertionSort (cmpLe strCmp) (ka.filter (fun k => ¬ k ∈ kb))
      if added = [] ∧ removed = [] then (["No differences."], 0)
      else ((if added = [] then [] else "[ADDED]" :: added) ++
            (if removed = [] then [] else "[REMOVED]" :: removed), 0)

/-! ### The sort / dedupe / fallback kernel of `warehouse.materialize_roster_all` -/

/-- One combined roster row restricted to the columns the merge logic
reads: the grouping key, the source tag, the date columns feeding
`_effective_dt`, `created` (feeding `last_updated`) and the string
fallback columns. -/
structure MRow where
  license_key : String
  source : String
  created : Option Int
  registration_date : Option Int
  first_issue_date : Option Int
  issue_date : Option Int
  expiry_date : Option Int
  qualification : Option String
  category : Option String
  continuation_status : Option String
  next_stage_label : Option String
  next_exam_period : Option String
  next_procedure_status : Option String
  name : Option String
  display_name : Option String
  employee_id : Option String
  birth_year_west : Option String
deriving DecidableEq, Repr

/-- `combined["last_updated"] = created.fillna(now)`. -/
def lastUpdated (now : Int) (r : MRow) : Int := r.created.getD now

/-- `_effective_dt`: first non-null of registration, issue, expiry,
first-issue dates, then `last_updated` (never null after its fill). -/
def effectiveDt (now : Int) (r : MRow) : Int :=
  (((r.registration_date.or r.issue_date).or r.expiry_date).or r.first_issue_date).getD
    (lastUpdated now r)

/-- `combined["source"].map({"ingest": 0, "manual": 2}).fillna(1)`. -/
def srcRank (s : String) : Nat :=
  if s = "ingest" then 0 else if s = "manual" then 2 else 1

/-- Comparator of `sort_values(by=[license_key, _source_rank,
_effective_dt, last_updated], ascending=[True, True, False, False])`. -/
def mCmp (now : Int) : MRow → MRow → Ordering :=
  compareLex (Ordering.byKey MRow.license_key strCmp)
    (compareLex (Ordering.byKey (fun r => srcRank r.source) natCmpO)
      (compareLex (Ordering.byKey (effectiveDt now) (flip intCmpO))
        (Ordering.byKey (lastUpdated now) (flip intCmpO))))


/-- The row ordering of the materialization sort. -/
def mLe (now : Int) : MRow → MRow → Prop := cmpLe (mCmp now)

instance : ∀ now, DecidableRel (mLe now) := fun now x y =>
  inferInstanceAs (Decidable (cmpLe (mCmp now) x y))

/-- `drop_duplicates(subset=["license_key"], keep="first")`. -/
def dedupByKey (seen : List String) : List MRow → List MRow
  | [] => []
  | x :: xs =>
      if x.license_key ∈ seen then dedupByKey seen xs
      else x :: dedupByKey (x.license_key :: seen) xs

/-- The value of one fallback column: either a string cell or a date cell. -/
inductive FVal where
  | str : Option String → FVal
  | date : Option Int → FVal
deriving DecidableEq, Repr

/-- `_has_data`: a cell counts as filled when it is non-null and, for
strings, does not strip to the empty string. -/
def hasData : FVal → Bool
  | .str none => false
  | .str (some s) => pyStrip s ≠ ""
  | .date none => false
  | .date (some _) => true

/-- Identifier of one entry of `fallback_columns`. -/
inductive FieldId where
  | registration_date | first_issue_date | issue_date | expiry_date
  | qualification | category | continuation_status | next_stage_label
  | next_exam_period | next_procedure_status | name | display_name
  | employee_id | birth_year_west
deriving DecidableEq, Repr

/-- Read one fallback column of a row. -/
def getF : FieldId → MRow → FVal
  | .registration_date, r => .date r.registration_date
  | .first_issue_date, r => .date r.first_issue_date
  | .issue_date, r => .date r.issue_date
  | .expiry_date, r => .date r.expiry_date
  | .qualification, r => .str r.qualification
  | .category, r => .str r.category
  | .continuation_status, r => .str r.continuation_status
  | .next_stage_label, r => .str r.next_stage_label
  | .next_exam_period, r => .str r.next_exam_period
  | .next_procedure_status, r => .str r.next_procedure_status
  | .name, r => .str r.name
  | .display_name, r => .str r.display_name
  | .employee_id, r => .str r.employee_id
  | .birth_year_west, r => .str r.birth_year_west

/-- Write one fallback column of a row (a null `FVal` of the other shape
clears the column, matching the dataframe assignment semantics). -/
def setF : FieldId → MRow → FVal → MRow
  | .registration_date, r, .date v => { r with registration_date := v }
  | .first_issue_date, r, .date v => { r with first_issue_date := v }
  | .issue_date, r, .date v => { r with issue_date := v }
  | .expiry_date, r, .date v => { r with expiry_date := v }
  | .qualification, r, .str v => { r with qualification := v }
  | .category, r, .str v => { r with category := v }
  | .continuation_status, r, .str v => { r with continuation_status := v }
  | .next_stage_label, r, .str v => { r with next_stage_label := v }
  | .next_exam_period, r, .str v => { r with next_exam_period := v }
  | .next_procedure_status, r, .str v => { r with next_procedure_status := v }
  | .name, r, .str v => { r with name := v }
  | .display_name, r, .str v => { r with display_name := v }
  | .employee_id, r, .str v => { r with employee_id := v }
  | .birth_year_west, r, .str v => { r with birth_year_west := v }
  | _, r, _ => r

/-- The null cell written when a group has no data for a column at all. -/
def nullF : FieldId → FVal
  | .registration_date => .date none
  | .first_issue_date => .date none
  | .issue_date => .date none
  | .expiry_date => .date none
  | _ => .str none

/-- The `fallback_columns` list, in source order. -/
def fallbackColumns : List FieldId :=
  [.registration_date, .first_issue_date, .issue_date, .expiry_date,
   .qualification, .category, .continuation_status, .next_stage_label,
   .next_exam_period, .next_procedure_status, .name, .display_name,
   .employee_id, .birth_year_west]

/-- `fallback_map` for one column: the first `_has_data` value among the
(sorted) rows sharing the license key, else null. -/
def fallbackVal (sorted : List MRow) (c : FieldId) (k : String) : FVal :=
  (((sorted.filter (fun r => r.license_key = k)).map (getF c)).find? hasData).getD (nullF c)

/-- One pass of the fallback loop: fill the column on every deduped row
whose own cell has no data. -/
def fillColumn (sorted : List MRow) (rows : List MRow) (c : FieldId) : List MRow :=
  rows.map (fun x => if hasData (getF c x) then x else setF c x (fallbackVal sorted c x.license_key))

/-- The per-row body of `fillColumn`, for reasoning about groups that
dedupe to a single row. -/
def fillStep (sorted : List MRow) (x : MRow) (c : FieldId) : MRow :=
  if hasData (getF c x) then x else setF c x (fallbackVal sorted c x.license_key)

/-- The sort / dedupe / field-level-fallback kernel of
`warehouse.materialize_roster_all` (lines 703-764): stable sort by
`(license_key, source rank, effective date desc, last_updated desc)`,
keep the first row per license key, then backfill each empty fallback
column from the first non-empty value in the key group. -/
def materializeCore (now : Int) (rows : List MRow) : List MRow :=
  let sorted := List.insertionSort (mLe now) rows
  let deduped := dedupByKey [] sorted
  fallbackColumns.foldl (fillColumn sorted) deduped

/-! ### Claim-support definitions -/

/-- The `rec_key` formula as the specification words it:
`name_key(record.name) + "|" + lower(strip(record.license_no)) + "|" +
lower(strip(record.qualification))`, missing fields contributing empty
segments. -/
def recKeySpec (r : Rec) : String :=
  nameKey r.name ++ "|" ++ r.license_no.elim "" (fun s => pyLower (pyStrip s)) ++ "|" ++
    r.qualification.elim "" (fun s => pyLower (pyStrip s))

/-- The record with every field missing. -/
def emptyRec : Rec := ⟨none, none, none, none, none, none, none⟩

/-- No snapshot has `snapshot_date` on or before `d`. -/
def noSnapBefore (st : Store) (d : Int) : Prop :=
  ∀ s ∈ st.snapshots, d < s.snapshot_date

/-- First (later-dated) snapshot of the out-of-order scenario. -/
def oooDf1 : List Rec := [⟨some "a", none, some "q", none, none, none, none⟩]

/-- Second (earlier-dated) snapshot of the out-of-order scenario. -/
def oooDf2 : List Rec := [⟨some "b", none, some "r", none, none, none, none⟩]

/-- The store after ingesting day 100 and then, out of order, day 50. -/
def oooStore : Store := ingestSnapshotDf oooDf2 50 (ingestSnapshotDf oooDf1 100 emptyStore)

/-- First row of the hash counterexample (key `"a||"`). -/
def hashRow1 : Rec := ⟨some "a", none, none, some "x", none, none, none⟩

/-- Second row of the hash counterexample (same key, different category). -/
def hashRow2 : Rec := ⟨some "a", none, none, some "y", none, none, none⟩

/-- A third hash row whose key differs from `hashRow1`'s. -/
def hashRow3 : Rec := ⟨some "b", none, some "q", none, none, none, none⟩

/-- Higher-priority merge row: an ingest row with a qualification but no
category. -/
def c7RowA : MRow :=
  ⟨"K1", "ingest", some 0, none, none, none, none, some "TIG", none,
   none, none, none, none, none, none, none, none⟩

/-- Lower-priority merge row: a manual row with a category but no
qualification. -/
def c7RowB : MRow :=
  ⟨"K1", "manual", some 0, none, none, none, none, none, some "JIS",
   none, none, none, none, none, none, none, none⟩


/-- The accumulated effect of the ingestion loop on one pre-existing
assignment row: each record whose key is open either overwrites the
payload of the row carrying the mapped `assign_id` or leaves it alone. -/
def elemStep (openM : String → Option Nat) (r : Rec) (a : Assignment) : Assignment :=
  match openM (recordKey r) with
  | some aid => if a.assign_id = aid then setPayload a r else a
  | none => a

/-- `elemStep` iterated over the records of a snapshot. -/
def elemFold (openM : String → Option Nat) (rows : List Rec) (a : Assignment) : Assignment :=
  rows.foldl (fun a r => elemStep openM r a) a

/-- The `current_keys` set of an ingestion. -/
def currentKeysOf (df : List Rec) : List String := (normalizeSnapshot df).map recordKey

/-- The `open_map` dictionary of an ingestion, as a lookup function. -/
def openMOf (st : Store) (df : List Rec) : String → Option Nat := fun rk =>
  if rk ∈ currentKeysOf df then openAssignFor st.assignments rk else none

/-- The close pass as a per-row function: close the open rows whose key
is missing from the snapshot. -/
def closeF (d : Int) (K : List String) (a : Assignment) : Assignment :=
  if a.valid_to = none ∧ ¬ a.rec_key ∈ K then { a with valid_to := some (d - 1) } else a

/-- Well-formedness that every sequence-generated store satisfies:
assignment ids are distinct and bounded by the sequence counter. -/
def StoreWF (st : Store) : Prop :=
  (st.assignments.map (·.assign_id)).Nodup ∧
    ∀ a ∈ st.assignments, a.assign_id ≤ st.assign_seq

/-- Number of assignment rows open for a given `rec_key`. -/
def openCount (st : Store) (rk : String) : Nat :=
  (st.assignments.filter (fun a => a.valid_to = none ∧ a.rec_key = rk)).length

/-- No two of the related rows are simultaneously open for one key. -/
def noTwoOpen (a b : Assignment) : Prop :=
  a.valid_to = none → b.valid_to = none → a.rec_key ≠ b.rec_key

/-- Two closed intervals for the same key are disjoint. -/
def disjForKey (a b : Assignment) : Prop :=
  a.rec_key = b.rec_key → ∀ ta tb, a.valid_to = some ta → b.valid_to = some tb →
    (ta < b.valid_from ∨ tb < a.valid_from)

/-- Claim C1's second conjunct: closed intervals per key are pairwise
disjoint. -/
def ClosedDisjoint (st : Store) : Prop := st.assignments.Pairwise disjForKey

/-- Every open row opens after every closed interval of its key ends. -/
def openAfterClosed (st : Store) : Prop :=
  ∀ a ∈ st.assignments, ∀ b ∈ st.assignments, a.valid_to = none →
    ∀ tb, b.valid_to = some tb → a.rec_key = b.rec_key → tb < a.valid_from

/-- All interval endpoints lie on or before snapshot date `D` (closed
ends strictly before it). -/
def datedBy (st : Store) (D : Int) : Prop :=
  ∀ a ∈ st.assignments,
    a.valid_from ≤ D ∧ ∀ t, a.valid_to = some t → a.valid_from ≤ t ∧ t ≤ D - 1

/-- The interval-manager invariant carried through the ingestion
induction. -/
def Inv (st : Store) (D : Int) : Prop :=
  StoreWF st ∧ st.assignments.Pairwise noTwoOpen ∧ ClosedDisjoint st ∧
    openAfterClosed st ∧ datedBy st D

/-- A sequence of `ingest_snapshot_df` calls on a fresh database. -/
def runSteps (steps : List (List Rec × Int)) : Store :=
  steps.foldl (fun st p => ingestSnapshotDf p.1 p.2 st) emptyStore

/-! ## Verification -/

/-! ### Comparator laws -/

lemma charsCmp_symm : ∀ a b, (charsCmp a b).swap = charsCmp b a := by
  intro a
  induction a with
  | nil => intro b; cases b <;> rfl
  | cons x xs ih =>
      intro b
      cases b with
      | nil => rfl
      | cons y ys =>
          unfold charsCmp
          rcases Nat.lt_trichotomy x.toNat y.toNat with h | h | h
          · rw [if_pos h, if_neg (by omega : ¬ y.toNat < x.toNat), if_pos h]
            rfl
          · rw [if_neg (by omega : ¬ x.toNat < y.toNat),
              if_neg (by omega : ¬ y.toNat < x.toNat),
              if_neg (by omega : ¬ y.toNat < x.toNat),
              if_neg (by omega : ¬ x.toNat < y.toNat)]
            exact ih ys
          · rw [if_neg (by omega : ¬ x.toNat < y.toNat), if_pos h, if_pos h]
            rfl

lemma charsCmp_eq_eq : ∀ a b, charsCmp a b = .eq → a = b := by
  intro a
  induction a with
  | nil =>
      intro b h
      cases b with
      | nil => rfl
      | cons y ys => exact absurd h (by simp [charsCmp])
  | cons x xs ih =>
      intro b h
      cases b with
      | nil => exact absurd h (by simp [charsCmp])
      | cons y ys =>
          unfold charsCmp at h
          rcases Nat.lt_trichotomy x.toNat y.toNat with hx | hx | hx
          · rw [if_pos hx] at h
            exact absurd h (by simp)
          · have hxy : x = y := by
              apply Char.eq_of_val_eq
              exact UInt32.toNat.inj hx
            rw [if_neg (by omega : ¬ x.toNat < y.toNat),
              if_neg (by omega : ¬ y.toNat < x.toNat)] at h
            rw [hxy, ih _ h]
          · rw [if_neg (by omega : ¬ x.toNat < y.toNat), if_pos hx] at h
            exact absurd h (by simp)

lemma charsCmp_le_trans :
    ∀ {a b c}, charsCmp a b ≠ .gt → charsCmp b c ≠ .gt → charsCmp a c ≠ .gt := by
  intro a
  induction a with
  | nil =>
      intro b c _ _
      cases c <;> simp [charsCmp]
  | cons x xs ih =>
      intro b c hab hbc
      cases b with
      | nil => exact absurd (rfl : charsCmp (x :: xs) [] = .gt) hab
      | cons y ys =>
          cases c with
          | nil => exact absurd (rfl : charsCmp (y :: ys) [] = .gt) hbc
          | cons z zs =>
              unfold charsCmp at hab hbc ⊢
              by_cases h₁ : x.toNat < y.toNat
              · rw [if_pos h₁] at hab
                by_cases h₂ : y.toNat < z.toNat
                · rw [if_pos (by omega : x.toNat < z.toNat)]
                  simp
                · by_cases h₃ : z.toNat < y.toNat
                  · rw [if_neg h₂, if_pos h₃] at hbc
                    exact absurd rfl hbc
                  · rw [if_pos (by omega : x.toNat < z.toNat)]
                    simp
              · by_cases h₄ : y.toNat < x.toNat
                · rw [if_neg h₁, if_pos h₄] at hab
                  exact absurd rfl hab
                · by_cases h₂ : y.toNat < z.toNat
                  · rw [if_pos (by omega : x.toNat < z.toNat)]
                    simp
                  · by_cases h₃ : z.toNat < y.toNat
                    · rw [if_neg h₂, if_pos h₃] at hbc
                      exact absurd rfl hbc
                    · rw [if_neg h₁, if_neg h₄] at hab
                      rw [if_neg h₂, if_neg h₃] at hbc
                      rw [if_neg (by omega : ¬ x.toNat < z.toNat),
                        if_neg (by omega : ¬ z.toNat < x.toNat)]
                      exact ih hab hbc

instance : Batteries.TransCmp charsCmp where
  symm := charsCmp_symm
  le_trans := charsCmp_le_trans

instance : Batteries.TransCmp strCmp where
  symm a b := charsCmp_symm a.data b.data
  le_trans := charsCmp_le_trans

lemma strCmp_eq_eq {a b : String} (h : strCmp a b = .eq) : a = b := by
  cases a; cases b
  exact congrArg String.mk (charsCmp_eq_eq _ _ h)

instance : Batteries.TransCmp optStrCmp where
  symm a b := by
    cases a <;> cases b
    · rfl
    · rfl
    · rfl
    · exact charsCmp_symm _ _
  le_trans {a b c} h₁ h₂ := by
    cases a <;> cases b <;> cases c
    · exact h₂
    · exact h₂
    · exact absurd rfl h₁
    · exact absurd rfl h₁
    · simp [optStrCmp]
    · exact absurd rfl h₂
    · simp [optStrCmp]
    · exact charsCmp_le_trans h₁ h₂

instance : Batteries.TransCmp natCmpO where
  symm a b := by
    unfold natCmpO
    rcases Nat.lt_trichotomy a b with h | h | h
    · rw [if_pos h, if_neg (by omega : ¬ b < a), if_pos h]
      rfl
    · rw [if_neg (by omega : ¬ a < b), if_neg (by omega : ¬ b < a),
        if_neg (by omega : ¬ b < a), if_neg (by omega : ¬ a < b)]
      rfl
    · rw [if_neg (by omega : ¬ a < b), if_pos h, if_pos h]
      rfl
  le_trans {a b c} h₁ h₂ := by
    unfold natCmpO at h₁ h₂ ⊢
    by_cases h : a < c
    · rw [if_pos h]
      simp
    · rw [if_neg h]
      by_cases h' : c < a
      · exfalso
        by_cases hab : a < b
        · by_cases hbc : b < c
          · omega
          · by_cases hcb : c < b
            · rw [if_neg hbc, if_pos hcb] at h₂
              exact h₂ rfl
            · omega
        · by_cases hba : b < a
          · rw [if_neg hab, if_pos hba] at h₁
            exact h₁ rfl
          · by_cases hbc : b < c
            · omega
            · by_cases hcb : c < b
              · rw [if_neg hbc, if_pos hcb] at h₂
                exact h₂ rfl
              · omega
      · rw [if_neg h']
        simp

instance : Batteries.TransCmp intCmpO where
  symm a b := by
    unfold intCmpO
    rcases Int.lt_trichotomy a b with h | h | h
    · rw [if_pos h, if_neg (by omega : ¬ b < a), if_pos h]
      rfl
    · rw [if_neg (by omega : ¬ a < b), if_neg (by omega : ¬ b < a),
        if_neg (by omega : ¬ b < a), if_neg (by omega : ¬ a < b)]
      rfl
    · rw [if_neg (by omega : ¬ a < b), if_pos h, if_pos h]
      rfl
  le_trans {a b c} h₁ h₂ := by
    unfold intCmpO at h₁ h₂ ⊢
    by_cases h : a < c
    · rw [if_pos h]
      simp
    · rw [if_neg h]
      by_cases h' : c < a
      · exfalso
        by_cases hab : a < b
        · by_cases hbc : b < c
          · omega
          · by_cases hcb : c < b
            · rw [if_neg hbc, if_pos hcb] at h₂
              exact h₂ rfl
            · omega
        · by_cases hba : b < a
          · rw [if_neg hab, if_pos hba] at h₁
            exact h₁ rfl
          · by_cases hbc : b < c
            · omega
            · by_cases hcb : c < b
              · rw [if_neg hbc, if_pos hcb] at h₂
                exact h₂ rfl
              · omega
      · rw [if_neg h']
        simp

lemma cmpLe_total (cmp : α → α → Ordering) [Batteries.OrientedCmp cmp] (x y : α) :
    cmpLe cmp x y ∨ cmpLe cmp y x := by
  unfold cmpLe
  by_cases h : cmp x y = .gt
  · right
    rw [Batteries.OrientedCmp.cmp_eq_gt.mp h]
    simp
  · exact Or.inl h

instance (cmp : α → α → Ordering) [Batteries.TransCmp cmp] : IsTotal α (cmpLe cmp) :=
  ⟨cmpLe_total cmp⟩

instance (cmp : α → α → Ordering) [Batteries.TransCmp cmp] : IsTrans α (cmpLe cmp) :=
  ⟨fun _ _ _ h h' => Batteries.TransCmp.le_trans h h'⟩

instance : Batteries.TransCmp asofCmp :=
  inferInstanceAs (Batteries.TransCmp (compareLex _ (compareLex _ _)))


instance : ∀ now, Batteries.TransCmp (mCmp now) := fun _ =>
  inferInstanceAs (Batteries.TransCmp (compareLex _ (compareLex _ (compareLex _ _))))

instance : IsTotal AsofRow asofLe := inferInstanceAs (IsTotal AsofRow (cmpLe asofCmp))

instance : IsTrans AsofRow asofLe := inferInstanceAs (IsTrans AsofRow (cmpLe asofCmp))

instance : ∀ now, IsTotal MRow (mLe now) := fun now =>
  inferInstanceAs (IsTotal MRow (cmpLe (mCmp now)))

instance : ∀ now, IsTrans MRow (mLe now) := fun now =>
  inferInstanceAs (IsTrans MRow (cmpLe (mCmp now)))




/-! ### Claim C6: `rec_key` derivation -/

/-- Claim C6: `rec_key` is pure and total, equals the spec's composition
`name_key(name) + "|" + lower(strip(license_no)) + "|" +
lower(strip(qualification))` with empty segments for missing fields, and
degenerates to `"||"` on the entirely empty record. -/
theorem c6_recKey : (∀ r : Rec, recordKey r = recKeySpec r) ∧ recordKey emptyRec = "||" := by
  constructor
  · intro r
    obtain ⟨n, l, q, c, f, i, e⟩ := r
    cases n <;> cases l <;> cases q <;> rfl
  · rfl

/-! ### Claim C9: diff with missing base snapshots -/

lemma pickLatest_isSome (o : Option Snapshot) (s : Snapshot) :
    ∃ c, pickLatest o s = some c := by
  cases o with
  | none => exact ⟨s, rfl⟩
  | some b =>
      by_cases hb : b.snapshot_date < s.snapshot_date
      · exact ⟨s, by simp [pickLatest, hb]⟩
      · exact ⟨b, by simp [pickLatest, hb]⟩

lemma foldPick_ne_none (l : List Snapshot) (b : Snapshot) :
    l.foldl pickLatest (some b) ≠ none := by
  induction l generalizing b with
  | nil => simp
  | cons s l ih =>
      rw [List.foldl_cons]
      obtain ⟨c, hc⟩ := pickLatest_isSome (some b) s
      rw [hc]
      exact ih c

lemma snapshotOnOrBefore_eq_none_iff (st : Store) (d : Int) :
    snapshotOnOrBefore st d = none ↔ noSnapBefore st d := by
  unfold snapshotOnOrBefore noSnapBefore
  rw [Option.map_eq_none']
  constructor
  · intro h s hs
    by_contra hlt
    push_neg at hlt
    have hmem : s ∈ st.snapshots.filter (fun s => s.snapshot_date ≤ d) :=
      List.mem_filter.mpr ⟨hs, by simpa using hlt⟩
    obtain ⟨l₁, l₂, hsplit⟩ := List.append_of_mem hmem
    rw [hsplit, List.foldl_append, List.foldl_cons] at h
    obtain ⟨c, hc⟩ := pickLatest_isSome (List.foldl pickLatest none l₁) s
    rw [hc] at h
    exact foldPick_ne_none l₂ c h
  · intro h
    have hnil : st.snapshots.filter (fun s => s.snapshot_date ≤ d) = [] := by
      rw [List.filter_eq_nil_iff]
      intro s hs
      simpa using h s hs
    rw [hnil]
    rfl

/-- Claim C9: when no snapshot exists on or before one of the two named
dates, `cli_diff` returns the "snapshots not found" message with the
distinct non-zero code 2 (its only other return code being 0) instead of
raising; it reads but never writes the store (the embedding returns no
new store). -/
theorem c9_diffMissing (st : Store) (d1 d2 : Int) :
    ((cliDiff st d1 d2).2 ≠ 0 ↔ (noSnapBefore st d1 ∨ noSnapBefore st d2)) ∧
    ((cliDiff st d1 d2).2 = 0 ∨ (cliDiff st d1 d2).2 = 2) ∧
    ((noSnapBefore st d1 ∨ noSnapBefore st d2) →
      cliDiff st d1 d2 = ([diffNotFoundMsg], 2)) := by
  rcases h1 : snapshotOnOrBefore st d1 with _ | s1
  · have hn : noSnapBefore st d1 := (snapshotOnOrBefore_eq_none_iff st d1).mp h1
    have he : cliDiff st d1 d2 = ([diffNotFoundMsg], 2) := by
      unfold cliDiff; rw [h1]
    rw [he]
    exact ⟨iff_of_true (by decide) (Or.inl hn), Or.inr rfl, fun _ => rfl⟩
  · rcases h2 : snapshotOnOrBefore st d2 with _ | s2
    · have hn : noSnapBefore st d2 := (snapshotOnOrBefore_eq_none_iff st d2).mp h2
      have he : cliDiff st d1 d2 = ([diffNotFoundMsg], 2) := by
        unfold cliDiff; rw [h1, h2]
      rw [he]
      exact ⟨iff_of_true (by decide) (Or.inr hn), Or.inr rfl, fun _ => rfl⟩
    · have hn1 : ¬ noSnapBefore st d1 := by
        rw [← snapshotOnOrBefore_eq_none_iff]; simp [h1]
      have hn2 : ¬ noSnapBefore st d2 := by
        rw [← snapshotOnOrBefore_eq_none_iff]; simp [h2]
      have hc : (cliDiff st d1 d2).2 = 0 := by
        simp only [cliDiff, h1, h2]
        split <;> rfl
      refine ⟨?_, Or.inl hc, fun h => (h.elim hn1 hn2).elim⟩
      rw [hc]
      simp [hn1, hn2]

/-- Witness for C9 at a concrete store: the empty store has no snapshot
on or before day 0, and diffing there yields the message and code 2. -/
theorem c9_diffMissing_witness :
    noSnapBefore emptyStore 0 ∧ cliDiff emptyStore 0 0 = ([diffNotFoundMsg], 2) := by
  have h : noSnapBefore emptyStore 0 := by intro s hs; simp [emptyStore] at hs
  exact ⟨h, (c9_diffMissing emptyStore 0 0).2.2 (Or.inl h)⟩

/-! ### Claim C5: out-of-order ingestion -/

/-- Claim C5: an out-of-order ingestion is processed without rejection
(both snapshots are recorded) and the close pass leaves an assignment
whose `valid_to` (day 49) precedes its `valid_from` (day 100). -/
theorem c5_outOfOrder :
    oooStore.snapshots.length = 2 ∧
    ∃ a ∈ oooStore.assignments,
      a.valid_from = 100 ∧ a.valid_to = some 49 ∧ (49 : Int) < 100 := by
  decide

/-! ### Claim C4: content-hash row-order invariance -/

instance : IsTotal (String × Rec) keyLe :=
  inferInstanceAs (IsTotal (String × Rec) (cmpLe (Ordering.byKey Prod.fst strCmp)))

instance : IsTrans (String × Rec) keyLe :=
  inferInstanceAs (IsTrans (String × Rec) (cmpLe (Ordering.byKey Prod.fst strCmp)))

/-- A non-strict comparator sandwich forces equality of the keys. -/
lemma cmp_eq_of_le_le {β : Type} (cmp : β → β → Ordering) [Batteries.TransCmp cmp]
    {x y : β} (h₁ : cmp x y ≠ .gt) (h₂ : cmp y x ≠ .gt) : cmp x y = .eq := by
  have h₃ : cmp x y ≠ .lt := by
    intro h
    exact h₂ (Batteries.OrientedCmp.cmp_eq_gt.mpr h)
  cases h : cmp x y
  · exact absurd h h₃
  · rfl
  · exact absurd h h₁

/-- Two sorted permutations of the same list agree when the sort keys are
pairwise distinct. -/
lemma eq_of_perm_sorted_nodupKeys {α β : Type} (cmp : β → β → Ordering)
    [Batteries.TransCmp cmp] (hcmp : ∀ x y, cmp x y = .eq → x = y) (key : α → β) :
    ∀ l₁ l₂ : List α, l₁.Perm l₂ →
      l₁.Sorted (fun a b => cmpLe cmp (key a) (key b)) →
      l₂.Sorted (fun a b => cmpLe cmp (key a) (key b)) →
      (l₁.map key).Nodup → l₁ = l₂ := by
  intro l₁
  induction l₁ with
  | nil =>
      intro l₂ hp _ _ _
      exact hp.nil_eq
  | cons a t₁ ih =>
      intro l₂ hp hs₁ hs₂ hnd
      cases l₂ with
      | nil => exact absurd hp.eq_nil (by simp)
      | cons b t₂ =>
          rw [List.map_cons, List.nodup_cons] at hnd
          obtain ⟨hna, hndt⟩ := hnd
          have hb_mem : b ∈ a :: t₁ := hp.symm.subset (List.mem_cons_self b t₂)
          have hba : b = a := by
            rcases List.mem_cons.mp hb_mem with h | h
            · exact h
            · -- key a ≤ key b from sortedness, key b ≤ key a from l₂'s sortedness
              have h1 : cmpLe cmp (key a) (key b) := (List.sorted_cons.mp hs₁).1 b h
              have ha_mem : a ∈ b :: t₂ := hp.subset (List.mem_cons_self a t₁)
              have h2 : cmpLe cmp (key b) (key a) := by
                rcases List.mem_cons.mp ha_mem with h' | h'
                · subst h'
                  unfold cmpLe
                  have he : cmp (key a) (key a) = .eq := Batteries.OrientedCmp.cmp_refl
                  rw [he]
                  simp
                · exact (List.sorted_cons.mp hs₂).1 a h'
              have hkey : key b = key a := hcmp _ _ (cmp_eq_of_le_le cmp h2 h1)
              exact absurd (hkey ▸ List.mem_map_of_mem key h) hna
          subst hba
          have hp' : t₁.Perm t₂ := hp.cons_inv
          have ht : t₁ = t₂ :=
            ih t₂ hp' (List.sorted_cons.mp hs₁).2 (List.sorted_cons.mp hs₂).2 hndt
          rw [ht]

/-- Sorting keyed records is permutation-invariant when keys are distinct. -/
lemma sortKeyed_eq_of_perm (l₁ l₂ : List (String × Rec)) (hp : l₁.Perm l₂)
    (hnd : (l₁.map Prod.fst).Nodup) :
    List.insertionSort keyLe l₁ = List.insertionSort keyLe l₂ := by
  apply eq_of_perm_sorted_nodupKeys strCmp (fun x y h => strCmp_eq_eq h) Prod.fst
  · exact ((List.perm_insertionSort keyLe l₁).trans hp).trans
      (List.perm_insertionSort keyLe l₂).symm
  · exact List.sorted_insertionSort keyLe l₁
  · exact List.sorted_insertionSort keyLe l₂
  · exact (((List.perm_insertionSort keyLe l₁).map Prod.fst).nodup_iff).mpr hnd

/-- Claim C4 (amended): the content hash is invariant under row
permutation provided the rows' `rec_key`s are pairwise distinct (the
stable sort orders ties by input position, so duplicate keys may hash
differently, see the counterexample). -/
theorem c4_hashPermInvariant (l₁ l₂ : List Rec) (hp : l₁.Perm l₂)
    (hnd : (l₁.map recordKey).Nodup) :
    contentHash l₁ = contentHash l₂ := by
  unfold contentHash
  have hk : (l₁.map (fun r => (recordKey r, r))).Perm (l₂.map (fun r => (recordKey r, r))) :=
    hp.map _
  have hnd' : ((l₁.map (fun r => (recordKey r, r))).map Prod.fst).Nodup := by
    rw [List.map_map]
    exact hnd
  rw [sortKeyed_eq_of_perm _ _ hk hnd']

/-- Counterexample to C4 as stated: swapping two rows that share a
`rec_key` but differ in `category` changes the digest, because the
stable sort keeps ties in input order. -/
theorem c4_counterexample :
    ([hashRow1, hashRow2] : List Rec).Perm [hashRow2, hashRow1] ∧
    contentHash [hashRow1, hashRow2] ≠ contentHash [hashRow2, hashRow1] := by
  have h1 : contentHash [hashRow1, hashRow2] =
      "48af9288eacdf058884596734f793b381fcf4f8210ad8eb4b53e59b0b723b9df" := by rfl
  have h2 : contentHash [hashRow2, hashRow1] =
      "416ddce9cc5cd9662155acdaf214925b6f21c5d9b680233b13867f19437b30e2" := by rfl
  refine ⟨List.Perm.swap hashRow2 hashRow1 [], ?_⟩
  rw [h1, h2]
  decide

/-- Witness for the amended C4 at concrete rows with distinct keys. -/
theorem c4_hashPermInvariant_witness :
    ([hashRow1, hashRow3] : List Rec).Perm [hashRow3, hashRow1] ∧
    (([hashRow1, hashRow3] : List Rec).map recordKey).Nodup ∧
    contentHash [hashRow1, hashRow3] = contentHash [hashRow3, hashRow1] :=
  ⟨List.Perm.swap hashRow3 hashRow1 [], by decide,
   c4_hashPermInvariant _ _ (List.Perm.swap hashRow3 hashRow1 []) (by decide)⟩

/-! ### Frame lemmas for the store operations -/

lemma getOrCreatePerson_frame (st : Store) (nm : String) :
    (getOrCreatePerson st nm).2.assignments = st.assignments ∧
    (getOrCreatePerson st nm).2.assign_seq = st.assign_seq ∧
    (getOrCreatePerson st nm).2.snapshots = st.snapshots ∧
    (getOrCreatePerson st nm).2.snapshot_records = st.snapshot_records := by
  cases hfind : st.persons.find? (fun p => p.name_key = nameKeyStr nm) <;>
    simp [getOrCreatePerson, hfind]

lemma ensurePersons_frame (names : List String) :
    ∀ st : Store,
      (ensurePersons names st).assignments = st.assignments ∧
      (ensurePersons names st).assign_seq = st.assign_seq ∧
      (ensurePersons names st).snapshots = st.snapshots ∧
      (ensurePersons names st).snapshot_records = st.snapshot_records := by
  induction names with
  | nil => intro st; exact ⟨rfl, rfl, rfl, rfl⟩
  | cons nm names ih =>
      intro st
      have hstep : ensurePersons (nm :: names) st =
          ensurePersons names (if pyStrip nm = "" then st else (getOrCreatePerson st nm).2) :=
        rfl
      rw [hstep]
      by_cases h : pyStrip nm = ""
      · rw [if_pos h]
        exact ih st
      · rw [if_neg h]
        obtain ⟨h1, h2, h3, h4⟩ := ih (getOrCreatePerson st nm).2
        obtain ⟨g1, g2, g3, g4⟩ := getOrCreatePerson_frame st nm
        exact ⟨h1.trans g1, h2.trans g2, h3.trans g3, h4.trans g4⟩

lemma elemStep_skel (openM : String → Option Nat) (r : Rec) (a : Assignment) :
    (elemStep openM r a).assign_id = a.assign_id ∧
    (elemStep openM r a).person_id = a.person_id ∧
    (elemStep openM r a).rec_key = a.rec_key ∧
    (elemStep openM r a).valid_from = a.valid_from ∧
    (elemStep openM r a).valid_to = a.valid_to := by
  unfold elemStep
  cases openM (recordKey r) with
  | none => exact ⟨rfl, rfl, rfl, rfl, rfl⟩
  | some aid =>
      by_cases h : a.assign_id = aid
      · simp [h, setPayload]
      · simp [h]

lemma elemFold_skel (openM : String → Option Nat) (rows : List Rec) :
    ∀ a : Assignment,
      (elemFold openM rows a).assign_id = a.assign_id ∧
      (elemFold openM rows a).person_id = a.person_id ∧
      (elemFold openM rows a).rec_key = a.rec_key ∧
      (elemFold openM rows a).valid_from = a.valid_from ∧
      (elemFold openM rows a).valid_to = a.valid_to := by
  induction rows with
  | nil => intro a; exact ⟨rfl, rfl, rfl, rfl, rfl⟩
  | cons r rows ih =>
      intro a
      have hstep : elemFold openM (r :: rows) a = elemFold openM rows (elemStep openM r a) :=
        rfl
      rw [hstep]
      obtain ⟨h1, h2, h3, h4, h5⟩ := ih (elemStep openM r a)
      obtain ⟨g1, g2, g3, g4, g5⟩ := elemStep_skel openM r a
      exact ⟨h1.trans g1, h2.trans g2, h3.trans g3, h4.trans g4, h5.trans g5⟩

/-! ### `_open_assignments_for` lemmas -/

lemma openFold_eq_none_iff (rk : String) :
    ∀ (l : List Assignment) (acc : Option Nat),
      l.foldl
          (fun acc a => if a.valid_to = none ∧ a.rec_key = rk then some a.assign_id else acc)
          acc = none ↔
        acc = none ∧ ∀ a ∈ l, ¬(a.valid_to = none ∧ a.rec_key = rk) := by
  intro l
  induction l with
  | nil => intro acc; simp
  | cons x l ih =>
      intro acc
      rw [List.foldl_cons]
      by_cases hx : x.valid_to = none ∧ x.rec_key = rk
      · rw [if_pos hx, ih]
        constructor
        · rintro ⟨h1, _⟩
          exact absurd h1 (by simp)
        · rintro ⟨_, h2⟩
          exact absurd hx (h2 x (List.mem_cons_self x l))
      · rw [if_neg hx, ih]
        constructor
        · rintro ⟨h1, h2⟩
          refine ⟨h1, fun a ha => ?_⟩
          rcases List.mem_cons.mp ha with h | h
          · rw [h]
            exact hx
          · exact h2 a h
        · rintro ⟨h1, h2⟩
          exact ⟨h1, fun a ha => h2 a (List.mem_cons_of_mem x ha)⟩

lemma openAssignFor_eq_none_iff (l : List Assignment) (rk : String) :
    openAssignFor l rk = none ↔ ∀ a ∈ l, ¬(a.valid_to = none ∧ a.rec_key = rk) := by
  unfold openAssignFor
  rw [openFold_eq_none_iff]
  simp

lemma openFold_unique (rk : String) (a : Assignment)
    (hopen : a.valid_to = none) (hkey : a.rec_key = rk) :
    ∀ (l : List Assignment) (acc : Option Nat),
      (∀ b ∈ l, b.valid_to = none → b.rec_key = rk → b = a) →
      (a ∈ l ∨ acc = some a.assign_id) →
      l.foldl
          (fun acc b => if b.valid_to = none ∧ b.rec_key = rk then some b.assign_id else acc)
          acc = some a.assign_id := by
  intro l
  induction l with
  | nil =>
      intro acc _ hin
      rcases hin with h | h
      · exact absurd h (by simp)
      · simpa using h
  | cons x l ih =>
      intro acc huniq hin
      rw [List.foldl_cons]
      by_cases hx : x.valid_to = none ∧ x.rec_key = rk
      · have hxa : x = a := huniq x (List.mem_cons_self x l) hx.1 hx.2
        rw [if_pos hx, hxa]
        exact ih _ (fun b hb h1 h2 => huniq b (List.mem_cons_of_mem x hb) h1 h2) (Or.inr rfl)
      · rw [if_neg hx]
        rcases hin with hmem | hacc
        · rcases List.mem_cons.mp hmem with h | h
          · rw [← h] at hx
            exact absurd ⟨hopen, hkey⟩ hx
          · exact ih _ (fun b hb h1 h2 => huniq b (List.mem_cons_of_mem x hb) h1 h2)
              (Or.inl h)
        · exact ih _ (fun b hb h1 h2 => huniq b (List.mem_cons_of_mem x hb) h1 h2)
            (Or.inr hacc)

lemma openAssignFor_unique (l : List Assignment) (rk : String) (a : Assignment)
    (ha : a ∈ l) (hopen : a.valid_to = none) (hkey : a.rec_key = rk)
    (huniq : ∀ b ∈ l, b.valid_to = none → b.rec_key = rk → b = a) :
    openAssignFor l rk = some a.assign_id :=
  openFold_unique rk a hopen hkey l none huniq (Or.inl ha)

/-! ### The ingestion loop -/

@[simp] lemma elemFold_nil (openM : String → Option Nat) (a : Assignment) :
    elemFold openM [] a = a := rfl

@[simp] lemma elemFold_cons (openM : String → Option Nat) (r : Rec) (rows : List Rec)
    (a : Assignment) :
    elemFold openM (r :: rows) a = elemFold openM rows (elemStep openM r a) := rfl

lemma stepRow_update (openM : String → Option Nat) (d : Int) (s : Store)
    (b : List Assignment) (r : Rec) (aid : Nat) (ho : openM (recordKey r) = some aid) :
    stepRow openM d (s, b) r =
      ({ s with assignments :=
          s.assignments.map (fun a => if a.assign_id = aid then setPayload a r else a) }, b) := by
  simp [stepRow, ho]

lemma stepRow_skip (openM : String → Option Nat) (d : Int) (s : Store)
    (b : List Assignment) (r : Rec) (ho : openM (recordKey r) = none)
    (hnm : pyStrip (r.name.getD "") = "") :
    stepRow openM d (s, b) r = (s, b) := by
  simp [stepRow, ho, hnm]

lemma stepRow_insert (openM : String → Option Nat) (d : Int) (s : Store)
    (b : List Assignment) (r : Rec) (ho : openM (recordKey r) = none)
    (hnm : ¬ pyStrip (r.name.getD "") = "") :
    stepRow openM d (s, b) r =
      ({ (getOrCreatePerson s (r.name.getD "")).2 with
          assign_seq := (getOrCreatePerson s (r.name.getD "")).2.assign_seq + 1 },
       b ++ [newAssign ((getOrCreatePerson s (r.name.getD "")).2.assign_seq + 1)
              (getOrCreatePerson s (r.name.getD "")).1 r d]) := by
  simp [stepRow, ho, hnm]

lemma foldStep_assignments (openM : String → Option Nat) (d : Int) :
    ∀ (rows : List Rec) (s : Store) (b : List Assignment),
      ((rows.foldl (stepRow openM d) (s, b)).1).assignments =
        s.assignments.map (elemFold openM rows) := by
  intro rows
  induction rows with
  | nil =>
      intro s b
      rw [show elemFold openM [] = fun a => a from rfl]
      exact (List.map_id' s.assignments).symm
  | cons r rows ih =>
      intro s b
      rw [List.foldl_cons]
      rcases ho : openM (recordKey r) with _ | aid
      · by_cases hnm : pyStrip (r.name.getD "") = ""
        · rw [stepRow_skip openM d s b r ho hnm, ih]
          apply List.map_congr_left
          intro a _
          rw [elemFold_cons]
          have hid : elemStep openM r a = a := by simp [elemStep, ho]
          rw [hid]
        · rw [stepRow_insert openM d s b r ho hnm, ih]
          have hassign :
              ({ (getOrCreatePerson s (r.name.getD "")).2 with
                  assign_seq :=
                    (getOrCreatePerson s (r.name.getD "")).2.assign_seq + 1 } :
                Store).assignments = s.assignments :=
            (getOrCreatePerson_frame s (r.name.getD "")).1
          rw [hassign]
          apply List.map_congr_left
          intro a _
          rw [elemFold_cons]
          have hid : elemStep openM r a = a := by simp [elemStep, ho]
          rw [hid]
      · rw [stepRow_update openM d s b r aid ho, ih]
        dsimp only
        rw [List.map_map]
        apply List.map_congr_left
        intro a _
        rw [Function.comp_apply, elemFold_cons]
        have hstep : elemStep openM r a = if a.assign_id = aid then setPayload a r else a := by
          simp [elemStep, ho]
        rw [hstep]

lemma foldStep_noInsert (openM : String → Option Nat) (d : Int) :
    ∀ (rows : List Rec) (s : Store) (b : List Assignment),
      (∀ r ∈ rows, openM (recordKey r) = none → pyStrip (r.name.getD "") = "") →
      rows.foldl (stepRow openM d) (s, b) =
        ({ s with assignments := s.assignments.map (elemFold openM rows) }, b) := by
  intro rows
  induction rows with
  | nil =>
      intro s b _
      have hmap : s.assignments.map (elemFold openM []) = s.assignments := by
        rw [show elemFold openM [] = fun a => a from rfl]
        exact List.map_id' s.assignments
      rw [hmap]
      rfl
  | cons r rows ih =>
      intro s b hall
      rw [List.foldl_cons]
      rcases ho : openM (recordKey r) with _ | aid
      · have hnm : pyStrip (r.name.getD "") = "" :=
          hall r (List.mem_cons_self r rows) ho
        rw [stepRow_skip openM d s b r ho hnm,
          ih s b (fun r' hr' => hall r' (List.mem_cons_of_mem r hr'))]
        have hmap : s.assignments.map (elemFold openM rows) =
            s.assignments.map (elemFold openM (r :: rows)) := by
          apply List.map_congr_left
          intro a _
          rw [elemFold_cons]
          have hid : elemStep openM r a = a := by simp [elemStep, ho]
          rw [hid]
        rw [hmap]
      · rw [stepRow_update openM d s b r aid ho,
          ih _ b (fun r' hr' => hall r' (List.mem_cons_of_mem r hr'))]
        dsimp only
        rw [List.map_map]
        have hmap :
            s.assignments.map
                (elemFold openM rows ∘ fun a => if a.assign_id = aid then setPayload a r else a) =
              s.assignments.map (elemFold openM (r :: rows)) := by
          apply List.map_congr_left
          intro a _
          rw [Function.comp_apply, elemFold_cons]
          have hstep : elemStep openM r a =
              if a.assign_id = aid then setPayload a r else a := by
            simp [elemStep, ho]
          rw [hstep]
        rw [hmap]

lemma foldStep_buf (openM : String → Option Nat) (d : Int) :
    ∀ (rows : List Rec) (s : Store) (b : List Assignment),
      ∃ t : List Assignment,
        (rows.foldl (stepRow openM d) (s, b)).2 = b ++ t ∧
        s.assign_seq ≤ ((rows.foldl (stepRow openM d) (s, b)).1).assign_seq ∧
        (∀ a ∈ t,
          a.valid_to = none ∧ a.valid_from = d ∧ openM a.rec_key = none ∧
          s.assign_seq < a.assign_id ∧
          a.assign_id ≤ ((rows.foldl (stepRow openM d) (s, b)).1).assign_seq ∧
          ∃ r ∈ rows, a.rec_key = recordKey r ∧ setPayload a r = a) ∧
        (t.map (·.rec_key)).Sublist (rows.map recordKey) ∧
        (t.map (·.assign_id)).Pairwise (· < ·) ∧
        (∀ r ∈ rows, openM (recordKey r) = none → ¬ pyStrip (r.name.getD "") = "" →
          ∃ a ∈ t, a.rec_key = recordKey r) := by
  intro rows
  induction rows with
  | nil =>
      intro s b
      exact ⟨[], by simp, le_refl _, by simp, by simp, by simp, by simp⟩
  | cons r rows ih =>
      intro s b
      rw [List.foldl_cons]
      rcases ho : openM (recordKey r) with _ | aid
      · by_cases hnm : pyStrip (r.name.getD "") = ""
        · rw [stepRow_skip openM d s b r ho hnm]
          obtain ⟨t, h1, h2, h3, h4, h5, h6⟩ := ih s b
          refine ⟨t, h1, h2, ?_, h4.cons _, h5, ?_⟩
          · intro a ha
            obtain ⟨p1, p2, p3, p4, p5, rr, hrr, q1, q2⟩ := h3 a ha
            exact ⟨p1, p2, p3, p4, p5, rr, List.mem_cons_of_mem r hrr, q1, q2⟩
          · intro r'' hr'' ho'' hnm''
            rcases List.mem_cons.mp hr'' with he | hm
            · rw [he] at hnm''
              exact absurd hnm hnm''
            · exact h6 r'' hm ho'' hnm''
        · rw [stepRow_insert openM d s b r ho hnm]
          rcases hgp : getOrCreatePerson s (r.name.getD "") with ⟨pid, s1⟩
          have hseq1 : s1.assign_seq = s.assign_seq := by
            have := (getOrCreatePerson_frame s (r.name.getD "")).2.1
            rw [hgp] at this
            exact this
          dsimp only
          obtain ⟨t, h1, h2, h3, h4, h5, h6⟩ :=
            ih { s1 with assign_seq := s1.assign_seq + 1 }
              (b ++ [newAssign (s1.assign_seq + 1) pid r d])
          dsimp only at h2 h3
          refine ⟨newAssign (s1.assign_seq + 1) pid r d :: t, ?_, ?_, ?_, ?_, ?_, ?_⟩
          · rw [h1]
            simp
          · omega
          · intro a ha
            rcases List.mem_cons.mp ha with h | h
            · subst h
              refine ⟨rfl, rfl, ho, ?_, ?_, r, List.mem_cons_self r rows, rfl, rfl⟩
              · show s.assign_seq < s1.assign_seq + 1
                omega
              · show s1.assign_seq + 1 ≤ _
                exact h2
            · obtain ⟨p1, p2, p3, p4, p5, rr, hrr, q1, q2⟩ := h3 a h
              exact ⟨p1, p2, p3, by omega, p5, rr, List.mem_cons_of_mem r hrr, q1, q2⟩
          · simp only [List.map_cons]
            exact List.Sublist.cons₂ _ h4
          · simp only [List.map_cons]
            rw [List.pairwise_cons]
            refine ⟨?_, h5⟩
            intro x hx
            obtain ⟨a, ha, hax⟩ := List.mem_map.mp hx
            obtain ⟨_, _, _, p4, _, _⟩ := h3 a ha
            rw [← hax]
            show s1.assign_seq + 1 < a.assign_id
            omega
          · intro r'' hr'' ho'' hnm''
            rcases List.mem_cons.mp hr'' with he | hm
            · refine ⟨newAssign (s1.assign_seq + 1) pid r d,
                List.mem_cons_self _ _, ?_⟩
              rw [he]
              rfl
            · obtain ⟨a, hat, hak⟩ := h6 r'' hm ho'' hnm''
              exact ⟨a, List.mem_cons_of_mem _ hat, hak⟩
      · rw [stepRow_update openM d s b r aid ho]
        obtain ⟨t, h1, h2, h3, h4, h5, h6⟩ :=
          ih { s with assignments :=
                s.assignments.map (fun a => if a.assign_id = aid then setPayload a r else a) } b
        refine ⟨t, h1, h2, ?_, h4.cons _, h5, ?_⟩
        · intro a ha
          obtain ⟨p1, p2, p3, p4, p5, rr, hrr, q1, q2⟩ := h3 a ha
          exact ⟨p1, p2, p3, p4, p5, rr, List.mem_cons_of_mem r hrr, q1, q2⟩
        · intro r'' hr'' ho'' hnm''
          rcases List.mem_cons.mp hr'' with he | hm
          · rw [he] at ho''
            exact absurd (ho.symm.trans ho'') (by simp)
          · exact h6 r'' hm ho'' hnm''

/-! ### The close pass -/

lemma closeMissing_char (d : Int) (K : List String) (st : Store)
    (hnd : (st.assignments.map (·.assign_id)).Nodup) :
    (closeMissing d K st).assignments = st.assignments.map (closeF d K) := by
  unfold closeMissing closeF
  apply List.map_congr_left
  intro a ha
  have hmem : a.assign_id ∈
      (st.assignments.filter (fun a => a.valid_to = none ∧ ¬ a.rec_key ∈ K)).map
        (·.assign_id) ↔
      (a.valid_to = none ∧ ¬ a.rec_key ∈ K) := by
    constructor
    · intro h
      obtain ⟨b, hb, hid⟩ := List.mem_map.mp h
      have hbm := List.mem_filter.mp hb
      have hba : b = a := List.inj_on_of_nodup_map hnd hbm.1 ha hid
      rw [← hba]
      exact of_decide_eq_true hbm.2
    · intro h
      exact List.mem_map_of_mem _ (List.mem_filter.mpr ⟨ha, decide_eq_true h⟩)
  by_cases hc : a.valid_to = none ∧ ¬ a.rec_key ∈ K
  · rw [if_pos (hmem.mpr hc), if_pos hc]
  · rw [if_neg (fun hin => hc (hmem.mp hin)), if_neg hc]

/-! ### Characterization of one full ingestion -/

lemma ingest_assignments_char (df : List Rec) (d : Int) (st : Store)
    (hnd : (st.assignments.map (·.assign_id)).Nodup)
    (hbound : ∀ a ∈ st.assignments, a.assign_id ≤ st.assign_seq) :
    ∃ t : List Assignment,
      (ingestSnapshotDf df d st).assignments =
        (st.assignments.map (elemFold (openMOf st df) (normalizeSnapshot df))).map
            (closeF d (currentKeysOf df)) ++
          t.map (closeF d (currentKeysOf df)) ∧
      st.assign_seq ≤ (ingestSnapshotDf df d st).assign_seq ∧
      (∀ a ∈ t,
        a.valid_to = none ∧ a.valid_from = d ∧ openMOf st df a.rec_key = none ∧
        st.assign_seq < a.assign_id ∧
        a.assign_id ≤ (ingestSnapshotDf df d st).assign_seq ∧
        ∃ r ∈ normalizeSnapshot df, a.rec_key = recordKey r ∧ setPayload a r = a) ∧
      (t.map (·.rec_key)).Sublist (currentKeysOf df) ∧
      (t.map (·.assign_id)).Pairwise (· < ·) ∧
      (∀ r ∈ normalizeSnapshot df, openMOf st df (recordKey r) = none →
        ¬ pyStrip (r.name.getD "") = "" → ∃ a ∈ t, a.rec_key = recordKey r) := by
  have hst2assign :
      (ensurePersons (sortedNames ((normalizeSnapshot df).filterMap (·.name)))
          (recordSnapshot (normalizeSnapshot df) d st)).assignments = st.assignments :=
    (ensurePersons_frame _ _).1
  have hst2seq :
      (ensurePersons (sortedNames ((normalizeSnapshot df).filterMap (·.name)))
          (recordSnapshot (normalizeSnapshot df) d st)).assign_seq = st.assign_seq :=
    (ensurePersons_frame _ _).2.1
  have hopenM :
      (fun rk =>
        if rk ∈ (normalizeSnapshot df).map recordKey then
          openAssignFor
            (ensurePersons (sortedNames ((normalizeSnapshot df).filterMap (·.name)))
              (recordSnapshot (normalizeSnapshot df) d st)).assignments rk
        else none) = openMOf st df := by
    funext rk
    rw [hst2assign]
    rfl
  have hingest :
      ingestSnapshotDf df d st =
        closeMissing d (currentKeysOf df)
          { ((normalizeSnapshot df).foldl (stepRow (openMOf st df) d)
              (ensurePersons (sortedNames ((normalizeSnapshot df).filterMap (·.name)))
                (recordSnapshot (normalizeSnapshot df) d st), [])).1 with
            assignments :=
              ((normalizeSnapshot df).foldl (stepRow (openMOf st df) d)
                  (ensurePersons (sortedNames ((normalizeSnapshot df).filterMap (·.name)))
                    (recordSnapshot (normalizeSnapshot df) d st), [])).1.assignments ++
                ((normalizeSnapshot df).foldl (stepRow (openMOf st df) d)
                    (ensurePersons (sortedNames ((normalizeSnapshot df).filterMap (·.name)))
                      (recordSnapshot (normalizeSnapshot df) d st), [])).2 } := by
    unfold ingestSnapshotDf
    dsimp only
    rw [hopenM]
    rfl
  obtain ⟨t, h1, h2, h3, h4, h5, h6⟩ :=
    foldStep_buf (openMOf st df) d (normalizeSnapshot df)
      (ensurePersons (sortedNames ((normalizeSnapshot df).filterMap (·.name)))
        (recordSnapshot (normalizeSnapshot df) d st)) []
  have hassign :=
    foldStep_assignments (openMOf st df) d (normalizeSnapshot df)
      (ensurePersons (sortedNames ((normalizeSnapshot df).filterMap (·.name)))
        (recordSnapshot (normalizeSnapshot df) d st)) []
  rw [hst2assign] at hassign
  rw [List.nil_append] at h1
  rw [hst2seq] at h2 h3
  -- id lists of the pre-close table
  have hidsA : (st.assignments.map (elemFold (openMOf st df) (normalizeSnapshot df))).map
      (·.assign_id) = st.assignments.map (·.assign_id) := by
    rw [List.map_map]
    apply List.map_congr_left
    intro a _
    exact (elemFold_skel (openMOf st df) (normalizeSnapshot df) a).1
  have hndT : (t.map (·.assign_id)).Nodup := h5.imp (fun h => Nat.ne_of_lt h)
  have hpre :
      ((st.assignments.map (elemFold (openMOf st df) (normalizeSnapshot df)) ++ t).map
          (·.assign_id)).Nodup := by
    rw [List.map_append, hidsA]
    refine List.Nodup.append hnd hndT ?_
    intro x hx hx'
    obtain ⟨a, ha, hax⟩ := List.mem_map.mp hx
    obtain ⟨b, hb, hbx⟩ := List.mem_map.mp hx'
    obtain ⟨_, _, _, q4, _, _⟩ := h3 b hb
    have := hbound a ha
    omega
  -- assemble
  refine ⟨t, ?_, ?_, ?_, h4, h5, h6⟩
  · rw [hingest]
    have hs4 :
        ({ ((normalizeSnapshot df).foldl (stepRow (openMOf st df) d)
            (ensurePersons (sortedNames ((normalizeSnapshot df).filterMap (·.name)))
              (recordSnapshot (normalizeSnapshot df) d st), [])).1 with
          assignments :=
            ((normalizeSnapshot df).foldl (stepRow (openMOf st df) d)
                (ensurePersons (sortedNames ((normalizeSnapshot df).filterMap (·.name)))
                  (recordSnapshot (normalizeSnapshot df) d st), [])).1.assignments ++
              ((normalizeSnapshot df).foldl (stepRow (openMOf st df) d)
                  (ensurePersons (sortedNames ((normalizeSnapshot df).filterMap (·.name)))
                    (recordSnapshot (normalizeSnapshot df) d st), [])).2 } :
          Store).assignments =
        st.assignments.map (elemFold (openMOf st df) (normalizeSnapshot df)) ++ t := by
      rw [show ({ ((normalizeSnapshot df).foldl (stepRow (openMOf st df) d)
            (ensurePersons (sortedNames ((normalizeSnapshot df).filterMap (·.name)))
              (recordSnapshot (normalizeSnapshot df) d st), [])).1 with
          assignments :=
            ((normalizeSnapshot df).foldl (stepRow (openMOf st df) d)
                (ensurePersons (sortedNames ((normalizeSnapshot df).filterMap (·.name)))
                  (recordSnapshot (normalizeSnapshot df) d st), [])).1.assignments ++
              ((normalizeSnapshot df).foldl (stepRow (openMOf st df) d)
                  (ensurePersons (sortedNames ((normalizeSnapshot df).filterMap (·.name)))
                    (recordSnapshot (normalizeSnapshot df) d st), [])).2 } :
          Store).assignments =
          ((normalizeSnapshot df).foldl (stepRow (openMOf st df) d)
              (ensurePersons (sortedNames ((normalizeSnapshot df).filterMap (·.name)))
                (recordSnapshot (normalizeSnapshot df) d st), [])).1.assignments ++
            ((normalizeSnapshot df).foldl (stepRow (openMOf st df) d)
                (ensurePersons (sortedNames ((normalizeSnapshot df).filterMap (·.name)))
                  (recordSnapshot (normalizeSnapshot df) d st), [])).2 from rfl,
        hassign, h1]
    rw [closeMissing_char _ _ _ (by rw [hs4]; exact hpre), hs4, List.map_append]
  · rw [hingest]
    exact h2
  · intro a ha
    obtain ⟨p1, p2, p3, p4, p5, hr⟩ := h3 a ha
    rw [hingest]
    exact ⟨p1, p2, p3, p4, p5, hr⟩

lemma closeF_skel (d : Int) (K : List String) (a : Assignment) :
    (closeF d K a).assign_id = a.assign_id ∧ (closeF d K a).person_id = a.person_id ∧
    (closeF d K a).rec_key = a.rec_key ∧ (closeF d K a).valid_from = a.valid_from := by
  by_cases hc : a.valid_to = none ∧ ¬ a.rec_key ∈ K
  · simp [closeF, hc]
  · simp [closeF, hc]

lemma closeF_valid_to (d : Int) (K : List String) (a : Assignment) :
    (closeF d K a).valid_to =
      if a.valid_to = none ∧ ¬ a.rec_key ∈ K then some (d - 1) else a.valid_to := by
  by_cases hc : a.valid_to = none ∧ ¬ a.rec_key ∈ K
  · simp [closeF, hc]
  · simp [closeF, hc]

lemma ids_map_closeF (d : Int) (K : List String) (l : List Assignment) :
    (l.map (closeF d K)).map (·.assign_id) = l.map (·.assign_id) := by
  rw [List.map_map]
  apply List.map_congr_left
  intro a _
  exact (closeF_skel d K a).1

lemma ids_map_elemFold (openM : String → Option Nat) (rows : List Rec)
    (l : List Assignment) :
    (l.map (elemFold openM rows)).map (·.assign_id) = l.map (·.assign_id) := by
  rw [List.map_map]
  apply List.map_congr_left
  intro a _
  exact (elemFold_skel openM rows a).1

lemma storeWF_empty : StoreWF emptyStore := by
  constructor
  · simp [emptyStore]
  · intro a ha
    simp [emptyStore] at ha

lemma ingest_wf (df : List Rec) (d : Int) (st : Store) (hwf : StoreWF st) :
    StoreWF (ingestSnapshotDf df d st) := by
  obtain ⟨hnd, hbound⟩ := hwf
  obtain ⟨t, heq, hseq, ht, hsub, hpw, hcov⟩ := ingest_assignments_char df d st hnd hbound
  constructor
  · rw [heq, List.map_append, ids_map_closeF, ids_map_closeF, ids_map_elemFold]
    refine List.Nodup.append hnd (hpw.imp (fun h => Nat.ne_of_lt h)) ?_
    intro x hx hx'
    obtain ⟨a, ha, hax⟩ := List.mem_map.mp hx
    obtain ⟨b, hb, hbx⟩ := List.mem_map.mp hx'
    obtain ⟨_, _, _, q4, _, _⟩ := ht b hb
    have := hbound a ha
    omega
  · rw [heq]
    intro a ha
    rcases List.mem_append.mp ha with h | h
    · obtain ⟨b, hb, hba⟩ := List.mem_map.mp h
      obtain ⟨c, hc, hcb⟩ := List.mem_map.mp hb
      have h1 : a.assign_id = c.assign_id := by
        rw [← hba, ← hcb, (closeF_skel _ _ _).1, (elemFold_skel _ _ _).1]
      rw [h1]
      have := hbound c hc
      omega
    · obtain ⟨b, hb, hba⟩ := List.mem_map.mp h
      obtain ⟨_, _, _, _, q5, _⟩ := ht b hb
      rw [← hba, (closeF_skel _ _ _).1]
      exact q5

/-! ### Claim C2: the close pass -/

/-- Claim C2: one ingestion sets `valid_to = snapshot_date - 1` exactly on
the pre-existing assignments that were open and whose key is absent from
the normalized snapshot; every other pre-existing assignment keeps its
`valid_to`, and all rows added by the ingestion end it open. -/
theorem c2_closePass (df : List Rec) (d : Int) (st : Store) (hwf : StoreWF st) :
    ∃ newTo : List (Option Int),
      (ingestSnapshotDf df d st).assignments.map (·.valid_to) =
        st.assignments.map
            (fun a =>
              if a.valid_to = none ∧ ¬ a.rec_key ∈ currentKeysOf df then some (d - 1)
              else a.valid_to) ++ newTo ∧
      ∀ x ∈ newTo, x = none := by
  obtain ⟨hnd, hbound⟩ := hwf
  obtain ⟨t, heq, hseq, ht, hsub, hpw, hcov⟩ := ingest_assignments_char df d st hnd hbound
  refine ⟨(t.map (closeF d (currentKeysOf df))).map (·.valid_to), ?_, ?_⟩
  · rw [heq, List.map_append]
    congr 1
    rw [List.map_map, List.map_map]
    apply List.map_congr_left
    intro a _
    obtain ⟨e1, e2, e3, e4, e5⟩ := elemFold_skel (openMOf st df) (normalizeSnapshot df) a
    have h1 := closeF_valid_to d (currentKeysOf df)
      (elemFold (openMOf st df) (normalizeSnapshot df) a)
    simp only [Function.comp_apply] at *
    rw [h1, e3, e5]
  · intro x hx
    obtain ⟨a', ha', hax⟩ := List.mem_map.mp hx
    obtain ⟨c, hc, hca⟩ := List.mem_map.mp ha'
    obtain ⟨p1, _, p3, _, _, r, hrmem, hrkey, _⟩ := ht c hc
    have hk : c.rec_key ∈ currentKeysOf df := by
      rw [hrkey]
      exact List.mem_map_of_mem recordKey hrmem
    have : closeF d (currentKeysOf df) c = c := by
      unfold closeF
      rw [if_neg (fun h => h.2 hk)]
    rw [← hax, ← hca, this]
    exact p1

/-- Witness for C2: the empty store is well-formed and the close pass
equation holds for a concrete ingestion. -/
theorem c2_closePass_witness :
    StoreWF emptyStore ∧
    ∃ newTo : List (Option Int),
      (ingestSnapshotDf oooDf1 0 emptyStore).assignments.map (·.valid_to) =
        emptyStore.assignments.map
            (fun a =>
              if a.valid_to = none ∧ ¬ a.rec_key ∈ currentKeysOf oooDf1 then some (0 - 1)
              else a.valid_to) ++ newTo ∧
      ∀ x ∈ newTo, x = none :=
  ⟨storeWF_empty, c2_closePass oooDf1 0 emptyStore storeWF_empty⟩

/-! ### Claim C8: update in place -/

lemma elemFold_append (openM : String → Option Nat) (l1 l2 : List Rec) (a : Assignment) :
    elemFold openM (l1 ++ l2) a = elemFold openM l2 (elemFold openM l1 a) := by
  simp [elemFold, List.foldl_append]

lemma elemFold_skip (openM : String → Option Nat) (rows : List Rec) (aid0 : Nat)
    (h : ∀ r' ∈ rows, openM (recordKey r') ≠ some aid0) :
    ∀ x : Assignment, x.assign_id = aid0 → elemFold openM rows x = x := by
  induction rows with
  | nil => intro x _; rfl
  | cons r' rows ih =>
      intro x hx
      rw [elemFold_cons]
      have hstep : elemStep openM r' x = x := by
        unfold elemStep
        rcases ho : openM (recordKey r') with _ | aid'
        · rfl
        · show (if x.assign_id = aid' then setPayload x r' else x) = x
          have hne : aid' ≠ aid0 := fun hc => h r' (List.mem_cons_self r' rows) (hc ▸ ho)
          rw [if_neg (by omega : ¬ x.assign_id = aid')]
      rw [hstep]
      exact ih (fun r'' hr'' => h r'' (List.mem_cons_of_mem r' hr'')) x hx

lemma openFold_eq_some (rk : String) :
    ∀ (l : List Assignment) (acc : Option Nat) (v : Nat),
      l.foldl
          (fun acc a => if a.valid_to = none ∧ a.rec_key = rk then some a.assign_id else acc)
          acc = some v →
      (∃ b ∈ l, b.valid_to = none ∧ b.rec_key = rk ∧ b.assign_id = v) ∨ acc = some v := by
  intro l
  induction l with
  | nil => intro acc v h; exact Or.inr h
  | cons x l ih =>
      intro acc v h
      rw [List.foldl_cons] at h
      by_cases hx : x.valid_to = none ∧ x.rec_key = rk
      · rw [if_pos hx] at h
        rcases ih _ v h with ⟨b, hb, hb1, hb2, hb3⟩ | hacc
        · exact Or.inl ⟨b, List.mem_cons_of_mem x hb, hb1, hb2, hb3⟩
        · exact Or.inl ⟨x, List.mem_cons_self x l, hx.1, hx.2, Option.some.inj hacc⟩
      · rw [if_neg hx] at h
        rcases ih _ v h with ⟨b, hb, hb1, hb2, hb3⟩ | hacc
        · exact Or.inl ⟨b, List.mem_cons_of_mem x hb, hb1, hb2, hb3⟩
        · exact Or.inr hacc

lemma openAssignFor_eq_some (l : List Assignment) (rk : String) (v : Nat)
    (h : openAssignFor l rk = some v) :
    ∃ b ∈ l, b.valid_to = none ∧ b.rec_key = rk ∧ b.assign_id = v := by
  rcases openFold_eq_some rk l none v h with hb | hacc
  · exact hb
  · exact absurd hacc (by simp)

/-- If the open map points some key at `a`'s id, that key is `a`'s key
(given distinct assignment ids). -/
lemma openMOf_target_key (st : Store) (df : List Rec)
    (hnd : (st.assignments.map (·.assign_id)).Nodup)
    (a : Assignment) (ha : a ∈ st.assignments) (rk : String)
    (h : openMOf st df rk = some a.assign_id) : a.rec_key = rk := by
  unfold openMOf at h
  by_cases hk : rk ∈ currentKeysOf df
  · rw [if_pos hk] at h
    obtain ⟨b, hb, hb1, hb2, hb3⟩ := openAssignFor_eq_some st.assignments rk a.assign_id h
    have hba : b = a := List.inj_on_of_nodup_map hnd hb ha hb3
    rw [← hba, hb2]
  · rw [if_neg hk] at h
    exact absurd h (by simp)

/-- Claim C8: a record whose `rec_key` matches the (unique) currently
open assignment updates only that row's payload fields; its id, person,
key and validity bounds are untouched, and no assignment row for that
key is added. -/
theorem c8_updateInPlace (df : List Rec) (d : Int) (st : Store) (hwf : StoreWF st)
    (hkeys : ((normalizeSnapshot df).map recordKey).Nodup)
    (r : Rec) (hr : r ∈ normalizeSnapshot df)
    (a : Assignment) (ha : a ∈ st.assignments) (haopen : a.valid_to = none)
    (hkey : a.rec_key = recordKey r)
    (huniq : ∀ b ∈ st.assignments, b.valid_to = none → b.rec_key = recordKey r → b = a) :
    (∃ a' ∈ (ingestSnapshotDf df d st).assignments,
        a'.assign_id = a.assign_id ∧ a'.person_id = a.person_id ∧
        a'.rec_key = a.rec_key ∧ a'.valid_from = a.valid_from ∧
        a'.valid_to = a.valid_to ∧
        a'.license_no = r.license_no ∧ a'.qualification = r.qualification ∧
        a'.category = r.category ∧ a'.first_issue_date = r.first_issue_date ∧
        a'.issue_date = r.issue_date ∧ a'.expiry_date = r.expiry_date) ∧
    ((ingestSnapshotDf df d st).assignments.filter
        (fun b => b.rec_key = recordKey r)).length =
      (st.assignments.filter (fun b => b.rec_key = recordKey r)).length := by
  obtain ⟨hnd, hbound⟩ := hwf
  have hK : recordKey r ∈ currentKeysOf df := List.mem_map_of_mem recordKey hr
  have hopenM : openMOf st df (recordKey r) = some a.assign_id := by
    unfold openMOf
    rw [if_pos hK]
    exact openAssignFor_unique st.assignments (recordKey r) a ha haopen hkey huniq
  -- the fold turns a into setPayload a r
  obtain ⟨l1, l2, hsplit⟩ := List.append_of_mem hr
  have hkeys' := hkeys
  rw [hsplit, List.map_append, List.map_cons] at hkeys'
  have hnotmem : ¬ recordKey r ∈ l1.map recordKey ∧ ¬ recordKey r ∈ l2.map recordKey := by
    have h1 := (List.nodup_middle).mp (by simpa using hkeys')
    rw [List.nodup_cons] at h1
    constructor
    · intro hc
      exact h1.1 (List.mem_append.mpr (Or.inl hc))
    · intro hc
      exact h1.1 (List.mem_append.mpr (Or.inr hc))
  have hne1 : ∀ r' ∈ l1, openMOf st df (recordKey r') ≠ some a.assign_id := by
    intro r' hr' hc
    have hkk : recordKey r = recordKey r' := by
      rw [← hkey]
      exact openMOf_target_key st df hnd a ha (recordKey r') hc
    refine hnotmem.1 ?_
    rw [hkk]
    exact List.mem_map_of_mem recordKey hr'
  have hne2 : ∀ r' ∈ l2, openMOf st df (recordKey r') ≠ some a.assign_id := by
    intro r' hr' hc
    have hkk : recordKey r = recordKey r' := by
      rw [← hkey]
      exact openMOf_target_key st df hnd a ha (recordKey r') hc
    refine hnotmem.2 ?_
    rw [hkk]
    exact List.mem_map_of_mem recordKey hr'
  have hfold : elemFold (openMOf st df) (normalizeSnapshot df) a = setPayload a r := by
    rw [hsplit, elemFold_append, elemFold_skip (openMOf st df) l1 a.assign_id hne1 a rfl,
      elemFold_cons]
    have hstep : elemStep (openMOf st df) r a = setPayload a r := by
      unfold elemStep
      rw [hopenM]
      show (if a.assign_id = a.assign_id then setPayload a r else a) = setPayload a r
      rw [if_pos rfl]
    rw [hstep]
    exact elemFold_skip (openMOf st df) l2 a.assign_id hne2 (setPayload a r) rfl
  have hclose : closeF d (currentKeysOf df) (setPayload a r) = setPayload a r := by
    unfold closeF
    rw [if_neg]
    intro hc
    exact hc.2 (by simpa [setPayload, hkey] using hK)
  obtain ⟨t, heq, hseq, ht, hsub, hpw, hcov⟩ := ingest_assignments_char df d st hnd hbound
  constructor
  · refine ⟨setPayload a r, ?_, rfl, rfl, rfl, rfl, rfl, rfl, rfl, rfl, rfl, rfl, rfl⟩
    rw [heq]
    apply List.mem_append_left
    have : setPayload a r =
        closeF d (currentKeysOf df) (elemFold (openMOf st df) (normalizeSnapshot df) a) := by
      rw [hfold, hclose]
    rw [this]
    exact List.mem_map_of_mem _ (List.mem_map_of_mem _ ha)
  · rw [heq, List.filter_append, List.length_append]
    have hT : (t.map (closeF d (currentKeysOf df))).filter
        (fun b => b.rec_key = recordKey r) = [] := by
      rw [List.filter_eq_nil_iff]
      intro b hb
      obtain ⟨c, hc, hcb⟩ := List.mem_map.mp hb
      obtain ⟨_, _, p3, _, _, _⟩ := ht c hc
      intro hbk
      have hck : c.rec_key = recordKey r := by
        rw [← (closeF_skel d (currentKeysOf df) c).2.2.1, hcb]
        exact of_decide_eq_true hbk
      rw [hck, hopenM] at p3
      exact absurd p3 (by simp)
    rw [hT]
    have hA : ((st.assignments.map
          (elemFold (openMOf st df) (normalizeSnapshot df))).map
            (closeF d (currentKeysOf df))).filter (fun b => b.rec_key = recordKey r) =
        ((st.assignments.filter (fun b => b.rec_key = recordKey r)).map
          (elemFold (openMOf st df) (normalizeSnapshot df))).map
            (closeF d (currentKeysOf df)) := by
      rw [List.map_map, List.filter_map, List.map_map]
      congr 1
      apply List.filter_congr
      intro b _
      have hk1 : (closeF d (currentKeysOf df)
          (elemFold (openMOf st df) (normalizeSnapshot df) b)).rec_key = b.rec_key := by
        rw [(closeF_skel _ _ _).2.2.1, (elemFold_skel _ _ _).2.2.1]
      simp only [Function.comp_apply, hk1]
    rw [hA, List.length_map, List.length_map, List.length_nil]
    omega

/-- Witness for C8 at a concrete two-ingestion scenario: after ingesting
`oooDf1` on day 0, re-ingesting it on day 5 updates the single open row
in place. -/
theorem c8_updateInPlace_witness :
    StoreWF (ingestSnapshotDf oooDf1 0 emptyStore) ∧
    (∃ a' ∈ (ingestSnapshotDf oooDf1 5 (ingestSnapshotDf oooDf1 0 emptyStore)).assignments,
        a'.assign_id = 1 ∧ a'.valid_to = none) := by
  have hwf : StoreWF (ingestSnapshotDf oooDf1 0 emptyStore) :=
    ingest_wf oooDf1 0 emptyStore storeWF_empty
  refine ⟨hwf, ?_⟩
  have ha : (⟨1, 1, "a||q", none, some "q", none, none, none, none, 0, none⟩ : Assignment) ∈
      (ingestSnapshotDf oooDf1 0 emptyStore).assignments := by decide
  obtain ⟨hmain, _⟩ :=
    c8_updateInPlace oooDf1 5 (ingestSnapshotDf oooDf1 0 emptyStore) hwf (by decide)
      ⟨some "a", none, some "q", none, none, none, none⟩ (by decide)
      ⟨1, 1, "a||q", none, some "q", none, none, none, none, 0, none⟩ ha rfl (by decide)
      (by decide)
  obtain ⟨a', ha', h1, _, _, _, h5, _⟩ := hmain
  exact ⟨a', ha', h1, h5⟩

/-! ### Claim C1: the interval invariant -/

/-- Core invariant-preservation argument over the post-ingestion
assignment table `old.map f ++ t`: `f` closes exactly the open rows whose
key left the snapshot, `t` holds the fresh rows opened at date `d`. -/
lemma inv_step_core (K : List String) (d D : Int) (old t : List Assignment)
    (f : Assignment → Assignment)
    (hf : ∀ x : Assignment, (f x).rec_key = x.rec_key ∧ (f x).valid_from = x.valid_from ∧
      (f x).valid_to =
        if x.valid_to = none ∧ ¬ x.rec_key ∈ K then some (d - 1) else x.valid_to)
    (hpwOpen : old.Pairwise noTwoOpen) (hpwDisj : old.Pairwise disjForKey)
    (hoac : ∀ a ∈ old, ∀ b ∈ old, a.valid_to = none → ∀ tb, b.valid_to = some tb →
      a.rec_key = b.rec_key → tb < a.valid_from)
    (hdated : ∀ a ∈ old,
      a.valid_from ≤ D ∧ ∀ t0, a.valid_to = some t0 → a.valid_from ≤ t0 ∧ t0 ≤ D - 1)
    (hD : D < d)
    (htfacts : ∀ c ∈ t, c.valid_to = none ∧ c.valid_from = d ∧ c.rec_key ∈ K ∧
      ∀ b ∈ old, ¬(b.valid_to = none ∧ b.rec_key = c.rec_key))
    (htkeys : (t.map (·.rec_key)).Nodup) :
    (old.map f ++ t).Pairwise noTwoOpen ∧
    (old.map f ++ t).Pairwise disjForKey ∧
    (∀ a ∈ old.map f ++ t, ∀ b ∈ old.map f ++ t, a.valid_to = none →
      ∀ tb, b.valid_to = some tb → a.rec_key = b.rec_key → tb < a.valid_from) ∧
    (∀ a ∈ old.map f ++ t,
      a.valid_from ≤ d ∧ ∀ t0, a.valid_to = some t0 → a.valid_from ≤ t0 ∧ t0 ≤ d - 1) := by
  -- open/closed characterization of the mapped rows
  have hopen_iff : ∀ x : Assignment,
      (f x).valid_to = none ↔ (x.valid_to = none ∧ x.rec_key ∈ K) := by
    intro x
    rw [(hf x).2.2]
    by_cases hc : x.valid_to = none ∧ ¬ x.rec_key ∈ K
    · rw [if_pos hc]
      constructor
      · intro h; exact absurd h (by simp)
      · intro h; exact absurd h.2 hc.2
    · rw [if_neg hc]
      constructor
      · intro h
        refine ⟨h, ?_⟩
        by_contra hk
        exact hc ⟨h, hk⟩
      · intro h; exact h.1
  have hsome_char : ∀ x : Assignment, ∀ t0, (f x).valid_to = some t0 →
      (x.valid_to = none ∧ ¬ x.rec_key ∈ K ∧ t0 = d - 1) ∨ x.valid_to = some t0 := by
    intro x t0 h
    rw [(hf x).2.2] at h
    by_cases hc : x.valid_to = none ∧ ¬ x.rec_key ∈ K
    · rw [if_pos hc] at h
      exact Or.inl ⟨hc.1, hc.2, (Option.some.inj h).symm⟩
    · rw [if_neg hc] at h
      exact Or.inr h
  refine ⟨?_, ?_, ?_, ?_⟩
  · -- no two open rows share a key
    rw [List.pairwise_append]
    refine ⟨?_, ?_, ?_⟩
    · rw [List.pairwise_map]
      refine hpwOpen.imp_of_mem ?_
      intro a b _ _ hab h1 h2
      rw [(hf a).1, (hf b).1]
      exact hab ((hopen_iff a).mp h1).1 ((hopen_iff b).mp h2).1
    · have hkeyPw : t.Pairwise (fun x y => x.rec_key ≠ y.rec_key) :=
        (List.pairwise_map).mp htkeys
      refine hkeyPw.imp ?_
      intro a b hab _ _
      exact hab
    · intro x hx y hy
      obtain ⟨a, ha, hax⟩ := List.mem_map.mp hx
      intro h1 h2 hkk
      rw [← hax] at h1 hkk
      obtain ⟨haop, hainK⟩ := (hopen_iff a).mp h1
      obtain ⟨_, _, _, hnone⟩ := htfacts y hy
      rw [(hf a).1] at hkk
      exact hnone a ha ⟨haop, hkk⟩
  · -- closed intervals stay disjoint
    rw [List.pairwise_append]
    refine ⟨?_, ?_, ?_⟩
    · rw [List.pairwise_map]
      refine (hpwOpen.and hpwDisj).imp_of_mem ?_
      intro a b hma hmb hab hkk ta tb hta htb
      obtain ⟨hnto, hdisj⟩ := hab
      rw [(hf a).1, (hf b).1] at hkk
      rw [(hf a).2.1, (hf b).2.1]
      rcases hsome_char a ta hta with ⟨haop, hanK, hta'⟩ | hta'
      · rcases hsome_char b tb htb with ⟨hbop, hbnK, htb'⟩ | htb'
        · exact absurd hkk (hnto haop hbop)
        · -- a newly closed at d-1, b an old closed interval
          right
          exact hoac a hma b hmb haop tb htb' hkk
      · rcases hsome_char b tb htb with ⟨hbop, hbnK, htb'⟩ | htb'
        · -- b newly closed, a an old closed interval
          left
          exact hoac b hmb a hma hbop ta hta' hkk.symm
        · exact hdisj hkk ta tb hta' htb'
    · refine List.pairwise_of_forall_mem_list ?_ |>.sublist (List.Sublist.refl t)
      intro a ha b hb
      intro _ ta tb hta htb
      obtain ⟨hop, _, _, _⟩ := htfacts a ha
      rw [hop] at hta
      exact absurd hta (by simp)
    · intro x hx y hy hkk ta tb hta htb
      obtain ⟨hop, _, _, _⟩ := htfacts y hy
      rw [hop] at htb
      exact absurd htb (by simp)
  · -- every open row starts after each closed interval of its key
    intro a' ha' b' hb' hopen' tb htb hkk
    rcases List.mem_append.mp ha' with hxa | hxa
    · obtain ⟨a, ha, hax⟩ := List.mem_map.mp hxa
      rw [← hax] at hopen' hkk ⊢
      obtain ⟨haop, hainK⟩ := (hopen_iff a).mp hopen'
      rw [(hf a).1] at hkk
      rw [(hf a).2.1]
      rcases List.mem_append.mp hb' with hxb | hxb
      · obtain ⟨b, hb, hbx⟩ := List.mem_map.mp hxb
        rw [← hbx] at htb hkk
        rw [(hf b).1] at hkk
        rcases hsome_char b tb htb with ⟨hbop, hbnK, htb'⟩ | htb'
        · exact absurd (hkk ▸ hainK) hbnK
        · exact hoac a ha b hb haop tb htb' hkk
      · obtain ⟨hop, _, _, _⟩ := htfacts b' hxb
        rw [hop] at htb
        exact absurd htb (by simp)
    · obtain ⟨_, hvf, _, _⟩ := htfacts a' hxa
      rw [hvf]
      rcases List.mem_append.mp hb' with hxb | hxb
      · obtain ⟨b, hb, hbx⟩ := List.mem_map.mp hxb
        rw [← hbx] at htb
        rcases hsome_char b tb htb with ⟨hbop, hbnK, htb'⟩ | htb'
        · omega
        · have := (hdated b hb).2 tb htb'
          omega
      · obtain ⟨hop, _, _, _⟩ := htfacts b' hxb
        rw [hop] at htb
        exact absurd htb (by simp)
  · -- dating after the new snapshot
    intro a' ha'
    rcases List.mem_append.mp ha' with hxa | hxa
    · obtain ⟨a, ha, hax⟩ := List.mem_map.mp hxa
      rw [← hax, (hf a).2.1]
      obtain ⟨hvfD, hcl⟩ := hdated a ha
      refine ⟨by omega, ?_⟩
      intro t0 ht0
      rcases hsome_char a t0 ht0 with ⟨haop, hanK, ht0'⟩ | ht0'
      · omega
      · have := hcl t0 ht0'
        omega
    · obtain ⟨hop, hvf, _, _⟩ := htfacts a' hxa
      rw [hvf, hop]
      refine ⟨le_refl d, ?_⟩
      intro t0 ht0
      exact absurd ht0 (by simp)

lemma inv_step (df : List Rec) (d : Int) (st : Store) (D : Int)
    (hInv : Inv st D) (hD : D < d)
    (hkeys : ((normalizeSnapshot df).map recordKey).Nodup) :
    Inv (ingestSnapshotDf df d st) d := by
  obtain ⟨hwf, hpwOpen, hpwDisj, hoac, hdated⟩ := hInv
  have hwf' := ingest_wf df d st hwf
  obtain ⟨hnd, hbound⟩ := hwf
  obtain ⟨t, heq, hseq, ht, hsub, hpw, hcov⟩ := ingest_assignments_char df d st hnd hbound
  have htK : ∀ c ∈ t, c.rec_key ∈ currentKeysOf df := by
    intro c hc
    obtain ⟨_, _, _, _, _, r, hrmem, hrkey, _⟩ := ht c hc
    rw [hrkey]
    exact List.mem_map_of_mem recordKey hrmem
  have hgt : t.map (closeF d (currentKeysOf df)) = t := by
    have h1 : t.map (closeF d (currentKeysOf df)) = t.map (fun a => a) := by
      apply List.map_congr_left
      intro c hc
      unfold closeF
      rw [if_neg (fun h => h.2 (htK c hc))]
    rw [h1, List.map_id']
  have heq' : (ingestSnapshotDf df d st).assignments =
      st.assignments.map
          (fun x => closeF d (currentKeysOf df)
            (elemFold (openMOf st df) (normalizeSnapshot df) x)) ++ t := by
    rw [heq, List.map_map, hgt]
    rfl
  have hf : ∀ x : Assignment,
      ((fun x => closeF d (currentKeysOf df)
          (elemFold (openMOf st df) (normalizeSnapshot df) x)) x).rec_key = x.rec_key ∧
      ((fun x => closeF d (currentKeysOf df)
          (elemFold (openMOf st df) (normalizeSnapshot df) x)) x).valid_from = x.valid_from ∧
      ((fun x => closeF d (currentKeysOf df)
          (elemFold (openMOf st df) (normalizeSnapshot df) x)) x).valid_to =
        if x.valid_to = none ∧ ¬ x.rec_key ∈ currentKeysOf df then some (d - 1)
        else x.valid_to := by
    intro x
    obtain ⟨e1, e2, e3, e4, e5⟩ := elemFold_skel (openMOf st df) (normalizeSnapshot df) x
    refine ⟨?_, ?_, ?_⟩
    · rw [(closeF_skel _ _ _).2.2.1, e3]
    · rw [(closeF_skel _ _ _).2.2.2, e4]
    · rw [closeF_valid_to]
      simp only [e3, e5]
  have htfacts : ∀ c ∈ t, c.valid_to = none ∧ c.valid_from = d ∧
      c.rec_key ∈ currentKeysOf df ∧
      ∀ b ∈ st.assignments, ¬(b.valid_to = none ∧ b.rec_key = c.rec_key) := by
    intro c hc
    obtain ⟨p1, p2, p3, _, _, _⟩ := ht c hc
    refine ⟨p1, p2, htK c hc, ?_⟩
    unfold openMOf at p3
    rw [if_pos (htK c hc)] at p3
    exact (openAssignFor_eq_none_iff st.assignments c.rec_key).mp p3
  have htkeys : (t.map (·.rec_key)).Nodup := hsub.nodup hkeys
  obtain ⟨g1, g2, g3, g4⟩ :=
    inv_step_core (currentKeysOf df) d D st.assignments t
      (fun x => closeF d (currentKeysOf df)
        (elemFold (openMOf st df) (normalizeSnapshot df) x))
      hf hpwOpen hpwDisj hoac hdated hD htfacts htkeys
  refine ⟨hwf', ?_, ?_, ?_, ?_⟩
  · rw [heq']
    exact g1
  · show (ingestSnapshotDf df d st).assignments.Pairwise disjForKey
    rw [heq']
    exact g2
  · intro a ha b hb
    rw [heq'] at ha hb
    exact g3 a ha b hb
  · intro a ha
    rw [heq'] at ha
    exact g4 a ha

lemma inv_empty (D : Int) : Inv emptyStore D := by
  refine ⟨storeWF_empty, ?_, ?_, ?_, ?_⟩
  · simp [emptyStore]
  · show (emptyStore.assignments).Pairwise disjForKey
    simp [emptyStore]
  · intro a ha
    simp [emptyStore] at ha
  · intro a ha
    simp [emptyStore] at ha

lemma inv_run : ∀ (steps : List (List Rec × Int)) (st : Store) (D : Int),
    Inv st D →
    (∀ x ∈ steps.map Prod.snd, D < x) →
    (steps.map Prod.snd).Pairwise (· < ·) →
    (∀ s ∈ steps, ((normalizeSnapshot s.1).map recordKey).Nodup) →
    ∃ D', Inv (steps.foldl (fun st p => ingestSnapshotDf p.1 p.2 st) st) D' := by
  intro steps
  induction steps with
  | nil =>
      intro st D hInv _ _ _
      exact ⟨D, hInv⟩
  | cons p steps ih =>
      intro st D hInv hgt hpw hnd
      rw [List.map_cons, List.pairwise_cons] at hpw
      rw [List.foldl_cons]
      apply ih (ingestSnapshotDf p.1 p.2 st) p.2
      · exact inv_step p.1 p.2 st D hInv
          (hgt p.2 (by simp)) (hnd p (List.mem_cons_self p steps))
      · exact hpw.1
      · exact hpw.2
      · exact fun s hs => hnd s (List.mem_cons_of_mem p hs)

lemma openCount_le_one_of_pairwise (rk : String) :
    ∀ l : List Assignment, l.Pairwise noTwoOpen →
      (l.filter (fun a => a.valid_to = none ∧ a.rec_key = rk)).length ≤ 1 := by
  intro l
  induction l with
  | nil => simp
  | cons x l ih =>
      intro hpw
      rw [List.pairwise_cons] at hpw
      by_cases hx : x.valid_to = none ∧ x.rec_key = rk
      · rw [List.filter_cons, decide_eq_true hx, if_pos rfl]
        have hnil : l.filter (fun a => a.valid_to = none ∧ a.rec_key = rk) = [] := by
          rw [List.filter_eq_nil_iff]
          intro b hb hbP
          obtain ⟨hb1, hb2⟩ := of_decide_eq_true hbP
          exact hpw.1 b hb hx.1 hb1 (hx.2.trans hb2.symm)
        rw [hnil]
        simp
      · rw [List.filter_cons, decide_eq_false hx, if_neg (by simp)]
        exact ih hpw.2

/-- Claim C1 (amended): starting from an empty store, for any sequence of
ingestions with strictly increasing snapshot dates in which each
normalized snapshot carries pairwise-distinct `rec_key`s, after every
ingestion at most one assignment per key is open and the closed intervals
of each key are pairwise disjoint.  (Without per-snapshot key
distinctness the invariant fails, see the counterexample.) -/
theorem c1_intervalInvariant (steps : List (List Rec × Int))
    (hmono : (steps.map Prod.snd).Pairwise (· < ·))
    (hkeys : ∀ s ∈ steps, ((normalizeSnapshot s.1).map recordKey).Nodup)
    (n : Nat) :
    (∀ rk, openCount (runSteps (steps.take n)) rk ≤ 1) ∧
    ClosedDisjoint (runSteps (steps.take n)) := by
  have hsub : (steps.take n).Sublist steps := List.take_sublist n steps
  have hmono' : ((steps.take n).map Prod.snd).Pairwise (· < ·) :=
    hmono.sublist (hsub.map Prod.snd)
  have hkeys' : ∀ s ∈ steps.take n, ((normalizeSnapshot s.1).map recordKey).Nodup :=
    fun s hs => hkeys s (hsub.subset hs)
  have hInvOut : ∃ D', Inv (runSteps (steps.take n)) D' := by
    unfold runSteps
    cases htn : steps.take n with
    | nil => exact ⟨0, inv_empty 0⟩
    | cons p rest =>
        rw [htn] at hmono' hkeys'
        rw [List.map_cons, List.pairwise_cons] at hmono'
        apply inv_run (p :: rest) emptyStore (p.2 - 1) (inv_empty _)
        · intro x hx
          rw [List.map_cons] at hx
          rcases List.mem_cons.mp hx with h | h
          · omega
          · have := hmono'.1 x h
            omega
        · rw [List.map_cons, List.pairwise_cons]
          exact hmono'
        · exact hkeys'
  obtain ⟨D', hInv⟩ := hInvOut
  obtain ⟨_, hpwOpen, hdisj, _, _⟩ := hInv
  exact ⟨fun rk => openCount_le_one_of_pairwise rk _ hpwOpen, hdisj⟩

/-- Counterexample to C1 as stated: a single snapshot containing two rows
with the same `rec_key` (same name, no license, no qualification, two
categories) opens two assignments for that key in one ingestion. -/
theorem c1_counterexample :
    ¬ (∀ rk, openCount (runSteps [([hashRow1, hashRow2], 0)]) rk ≤ 1) := by
  intro h
  have h2 : openCount (runSteps [([hashRow1, hashRow2], 0)]) "a||" = 2 := by decide
  have h1 := h "a||"
  omega

/-- Witness for the amended C1 at a concrete two-snapshot run. -/
theorem c1_intervalInvariant_witness :
    ((([([hashRow1], 0), ([hashRow3], 10)] : List (List Rec × Int)).map Prod.snd).Pairwise
        (· < ·)) ∧
    (∀ rk, openCount (runSteps ([([hashRow1], 0), ([hashRow3], 10)].take 2)) rk ≤ 1) ∧
    ClosedDisjoint (runSteps ([([hashRow1], 0), ([hashRow3], 10)].take 2)) :=
  ⟨by decide,
   c1_intervalInvariant [([hashRow1], 0), ([hashRow3], 10)] (by decide) (by decide) 2⟩

lemma ingest_valid_from_lb (c : Int) (df : List Rec) (d : Int) (st : Store)
    (hwf : StoreWF st)
    (hst : ∀ a ∈ st.assignments, c ≤ a.valid_from) (hd : c ≤ d) :
    ∀ a ∈ (ingestSnapshotDf df d st).assignments, c ≤ a.valid_from := by
  obtain ⟨t, heq, _, ht, _, _, _⟩ := ingest_assignments_char df d st hwf.1 hwf.2
  intro a ha
  rw [heq] at ha
  rcases List.mem_append.mp ha with h | h
  · obtain ⟨b, hb, hba⟩ := List.mem_map.mp h
    obtain ⟨e, he, heb⟩ := List.mem_map.mp hb
    have h1 : a.valid_from = e.valid_from := by
      rw [← hba, ← heb, (closeF_skel _ _ _).2.2.2, (elemFold_skel _ _ _).2.2.2.1]
    rw [h1]
    exact hst e he
  · obtain ⟨b, hb, hba⟩ := List.mem_map.mp h
    obtain ⟨_, hvf, _⟩ := ht b hb
    have h1 : a.valid_from = b.valid_from := by
      rw [← hba, (closeF_skel _ _ _).2.2.2]
    rw [h1, hvf]
    exact hd

lemma runSteps_valid_from_lb (c : Int) :
    ∀ (steps : List (List Rec × Int)) (st : Store), StoreWF st →
      (∀ a ∈ st.assignments, c ≤ a.valid_from) →
      (∀ s ∈ steps, c ≤ s.2) →
      ∀ a ∈ (steps.foldl (fun st p => ingestSnapshotDf p.1 p.2 st) st).assignments,
        c ≤ a.valid_from := by
  intro steps
  induction steps with
  | nil =>
      intro st _ hst _
      simpa using hst
  | cons p steps ih =>
      intro st hwf hst hsteps
      rw [List.foldl_cons]
      apply ih _ (ingest_wf p.1 p.2 st hwf)
      · exact ingest_valid_from_lb c p.1 p.2 st hwf hst
          (hsteps p (List.mem_cons_self p steps))
      · exact fun s hs => hsteps s (List.mem_cons_of_mem p hs)

/-- Claim C3: for every store and date `d`, the as-of query returns
exactly the person/assignment joins with `valid_from ≤ d` and
`valid_to` NULL or `≥ d`, sorted by name, then qualification, then
license number; and after any run of ingestions whose snapshot dates all
exceed `d` it returns the empty list (a read-only result, not an
error — the query is a pure function of the store in this model). -/
theorem c3_asofQuery (st : Store) (d : Int) (steps : List (List Rec × Int)) :
    (∀ r, r ∈ asofRows st d ↔
      ∃ p ∈ st.persons, ∃ a ∈ st.assignments,
        p.person_id = a.person_id ∧ a.valid_from ≤ d ∧
        (a.valid_to = none ∨ ∃ t, a.valid_to = some t ∧ d ≤ t) ∧
        r = mkAsofRow p a) ∧
    (asofRows st d).Sorted asofLe ∧
    ((∀ s ∈ steps, d < s.2) → asofRows (runSteps steps) d = []) := by
  refine ⟨?_, ?_, ?_⟩
  · intro r
    have hperm := List.perm_insertionSort asofLe
      (((st.assignments.flatMap (fun a =>
          (st.persons.filter (fun p => p.person_id = a.person_id)).map
            (fun p => (p, a)))).filter
          (fun pa => validOn pa.2 d)).map (fun pa => mkAsofRow pa.1 pa.2))
    rw [show asofRows st d = List.insertionSort asofLe
      (((st.assignments.flatMap (fun a =>
          (st.persons.filter (fun p => p.person_id = a.person_id)).map
            (fun p => (p, a)))).filter
          (fun pa => validOn pa.2 d)).map (fun pa => mkAsofRow pa.1 pa.2)) from rfl]
    rw [hperm.mem_iff]
    constructor
    · intro hr
      obtain ⟨pa, hpa, hpar⟩ := List.mem_map.mp hr
      have hpa' := List.mem_filter.mp hpa
      obtain ⟨a, ha, hpa2⟩ := List.mem_flatMap.mp hpa'.1
      obtain ⟨p, hp, hppa⟩ := List.mem_map.mp hpa2
      have hpmem := List.mem_filter.mp hp
      have hpid : p.person_id = a.person_id := of_decide_eq_true hpmem.2
      have hv : validOn pa.2 d := of_decide_eq_true hpa'.2
      rw [← hppa] at hv hpar
      obtain ⟨hv1, hv2⟩ := hv
      exact ⟨p, hpmem.1, a, ha, hpid, hv1, hv2, hpar.symm⟩
    · rintro ⟨p, hp, a, ha, hpid, hvf, hvt, hr⟩
      apply List.mem_map.mpr
      refine ⟨(p, a), ?_, hr.symm⟩
      apply List.mem_filter.mpr
      refine ⟨?_, decide_eq_true (show validOn (p, a).2 d from ⟨hvf, hvt⟩)⟩
      apply List.mem_flatMap.mpr
      exact ⟨a, ha,
        List.mem_map.mpr ⟨p, List.mem_filter.mpr ⟨hp, decide_eq_true hpid⟩, rfl⟩⟩
  · exact List.sorted_insertionSort asofLe _
  · intro hearly
    have hlb := runSteps_valid_from_lb (d + 1) steps emptyStore storeWF_empty
      (by intro a ha; simp [emptyStore] at ha)
      (fun s hs => by have := hearly s hs; omega)
    have hfil : ∀ pa ∈ ((runSteps steps).assignments.flatMap (fun a =>
        ((runSteps steps).persons.filter (fun p => p.person_id = a.person_id)).map
          (fun p => (p, a)))), ¬ validOn pa.2 d := by
      intro pa hpa hv
      obtain ⟨a, ha, hpa2⟩ := List.mem_flatMap.mp hpa
      obtain ⟨p, hp, hppa⟩ := List.mem_map.mp hpa2
      rw [← hppa] at hv
      obtain ⟨hv1, _⟩ := hv
      have := hlb a ha
      dsimp only at hv1
      omega
    have hrows : (((runSteps steps).assignments.flatMap (fun a =>
        ((runSteps steps).persons.filter (fun p => p.person_id = a.person_id)).map
          (fun p => (p, a)))).filter (fun pa => validOn pa.2 d)) = [] := by
      rw [List.filter_eq_nil_iff]
      intro pa hpa hdec
      exact hfil pa hpa (of_decide_eq_true hdec)
    show List.insertionSort asofLe
      ((((runSteps steps).assignments.flatMap (fun a =>
          ((runSteps steps).persons.filter (fun p => p.person_id = a.person_id)).map
            (fun p => (p, a)))).filter
          (fun pa => validOn pa.2 d)).map (fun pa => mkAsofRow pa.1 pa.2)) = []
    rw [hrows]
    rfl

/-- Witness for C3: after ingesting one snapshot dated day 5, the as-of
query at day 0 is empty. -/
theorem c3_asofQuery_witness :
    asofRows (runSteps [([hashRow1], 5)]) 0 = [] :=
  (c3_asofQuery (runSteps [([hashRow1], 5)]) 0 [([hashRow1], 5)]).2.2 (by decide)

/-! ### Merge-kernel lemmas -/

lemma getF_setF_ne (c c' : FieldId) (h : c ≠ c') (r : MRow) (v : FVal) :
    getF c (setF c' r v) = getF c r := by
  cases c' <;> cases v <;> cases c <;> first | rfl | exact absurd rfl h

lemma getF_setF_fallback (c : FieldId) (r : MRow) (sorted : List MRow) (k : String) :
    getF c (setF c r (fallbackVal sorted c k)) = fallbackVal sorted c k := by
  rcases hf : (((sorted.filter (fun r => r.license_key = k)).map (getF c)).find? hasData)
      with _ | v
  · have hval : fallbackVal sorted c k = nullF c := by
      unfold fallbackVal
      rw [hf]
      rfl
    rw [hval]
    cases c <;> rfl
  · have hmem := List.mem_of_find?_eq_some hf
    obtain ⟨r', _, hv⟩ := List.mem_map.mp hmem
    have hval : fallbackVal sorted c k = v := by
      unfold fallbackVal
      rw [hf]
      rfl
    rw [hval, ← hv]
    cases c <;> rfl

lemma fillStep_lk (sorted : List MRow) (x : MRow) (c : FieldId) :
    (fillStep sorted x c).license_key = x.license_key := by
  unfold fillStep
  by_cases hd : hasData (getF c x) = true
  · rw [if_pos hd]
  · rw [if_neg hd]
    generalize fallbackVal sorted c x.license_key = v
    cases c <;> cases v <;> rfl

lemma getF_fillStep_ne (sorted : List MRow) (x : MRow) (c c' : FieldId) (h : c ≠ c') :
    getF c (fillStep sorted x c') = getF c x := by
  unfold fillStep
  by_cases hd : hasData (getF c' x) = true
  · rw [if_pos hd]
  · rw [if_neg hd]
    exact getF_setF_ne c c' h x _

lemma fillFold_hasData_stable (sorted : List MRow) (c : FieldId) :
    ∀ (cols : List FieldId) (x : MRow), hasData (getF c x) = true →
      getF c (cols.foldl (fillStep sorted) x) = getF c x := by
  intro cols
  induction cols with
  | nil => intro x _; rfl
  | cons c' cols ih =>
      intro x hx
      rw [List.foldl_cons]
      have hstep : getF c (fillStep sorted x c') = getF c x := by
        by_cases hcc : c = c'
        · subst hcc
          unfold fillStep
          rw [if_pos hx]
        · exact getF_fillStep_ne sorted x c c' hcc
      rw [ih (fillStep sorted x c') (by rw [hstep]; exact hx), hstep]

lemma fillFold_lk (sorted : List MRow) :
    ∀ (cols : List FieldId) (x : MRow),
      (cols.foldl (fillStep sorted) x).license_key = x.license_key := by
  intro cols
  induction cols with
  | nil => intro x; rfl
  | cons c' cols ih =>
      intro x
      rw [List.foldl_cons, ih, fillStep_lk]

lemma fillFold_fills (sorted : List MRow) (c : FieldId) :
    ∀ (cols₁ cols₂ : List FieldId) (x : MRow),
      hasData (getF c x) = false →
      hasData (fallbackVal sorted c x.license_key) = true →
      ¬ c ∈ cols₁ →
      getF c ((cols₁ ++ c :: cols₂).foldl (fillStep sorted) x) =
        fallbackVal sorted c x.license_key := by
  intro cols₁
  induction cols₁ with
  | nil =>
      intro cols₂ x hx hfb _
      rw [List.nil_append, List.foldl_cons]
      have hset : fillStep sorted x c = setF c x (fallbackVal sorted c x.license_key) := by
        unfold fillStep
        rw [if_neg (by rw [hx]; decide)]
      have hgf : getF c (fillStep sorted x c) = fallbackVal sorted c x.license_key := by
        rw [hset]
        exact getF_setF_fallback c x sorted x.license_key
      rw [fillFold_hasData_stable sorted c cols₂ (fillStep sorted x c)
        (by rw [hgf]; exact hfb), hgf]
  | cons c' cols₁ ih =>
      intro cols₂ x hx hfb hnot
      have hcc : c ≠ c' := fun h => hnot (by rw [h]; exact List.mem_cons_self c' cols₁)
      rw [List.cons_append, List.foldl_cons]
      have hstep := getF_fillStep_ne sorted x c c' hcc
      have hlk := fillStep_lk sorted x c'
      have hih := ih cols₂ (fillStep sorted x c') (by rw [hstep]; exact hx)
        (by rw [hlk]; exact hfb) (fun h => hnot (List.mem_cons_of_mem c' h))
      rw [hih, hlk]

lemma fillFold_singleton (sorted : List MRow) :
    ∀ (cols : List FieldId) (x : MRow),
      cols.foldl (fillColumn sorted) [x] = [cols.foldl (fillStep sorted) x] := by
  intro cols
  induction cols with
  | nil => intro x; rfl
  | cons c cols ih =>
      intro x
      rw [List.foldl_cons, List.foldl_cons]
      have h1 : fillColumn sorted [x] c = [fillStep sorted x c] := rfl
      rw [h1, ih]

/-- Claim C7: materializing two rows that share a `license_key`, where the
higher-priority row has a non-empty qualification and an empty category
and the lower-priority row has a non-empty category, yields a single row
carrying the authoritative row's qualification together with the other
row's category — in either input order. -/
theorem c7_mergeFieldPreservation (now : Int) (a b : MRow)
    (hkey : a.license_key = b.license_key)
    (hrank : srcRank a.source < srcRank b.source)
    (hqualA : hasData (getF FieldId.qualification a) = true)
    (hcatA : hasData (getF FieldId.category a) = false)
    (hcatB : hasData (getF FieldId.category b) = true) :
    ∃ m : MRow, materializeCore now [a, b] = [m] ∧ materializeCore now [b, a] = [m] ∧
      m.qualification = a.qualification ∧ m.category = b.category := by
  have hlkab : strCmp a.license_key b.license_key = .eq := by
    rw [hkey]
    exact Batteries.OrientedCmp.cmp_refl
  have hlkba : strCmp b.license_key a.license_key = .eq := by
    rw [hkey]
    exact Batteries.OrientedCmp.cmp_refl
  have hrkab : natCmpO (srcRank a.source) (srcRank b.source) = .lt := by
    unfold natCmpO
    rw [if_pos hrank]
  have hrkba : natCmpO (srcRank b.source) (srcRank a.source) = .gt := by
    unfold natCmpO
    rw [if_neg (by omega), if_pos hrank]
  have hcmpab : mCmp now a b = .lt := by
    unfold mCmp compareLex Ordering.byKey
    rw [hlkab, hrkab]
    rfl
  have hcmpba : mCmp now b a = .gt := by
    unfold mCmp compareLex Ordering.byKey
    rw [hlkba, hrkba]
    rfl
  have hle : mLe now a b := by
    unfold mLe cmpLe
    rw [hcmpab]
    decide
  have hnle : ¬ mLe now b a := by
    unfold mLe cmpLe
    rw [hcmpba]
    decide
  have hsortAB : List.insertionSort (mLe now) [a, b] = [a, b] := by
    simp only [List.insertionSort, List.orderedInsert]
    rw [if_pos hle]
  have hsortBA : List.insertionSort (mLe now) [b, a] = [a, b] := by
    simp only [List.insertionSort, List.orderedInsert]
    rw [if_neg hnle]
  have hdedup : dedupByKey [] [a, b] = [a] := by
    simp only [dedupByKey]
    rw [if_neg (List.not_mem_nil a.license_key),
      if_pos (List.mem_singleton.mpr hkey.symm)]
  refine ⟨fallbackColumns.foldl (fillStep [a, b]) a, ?_, ?_, ?_, ?_⟩
  · show fallbackColumns.foldl (fillColumn (List.insertionSort (mLe now) [a, b]))
        (dedupByKey [] (List.insertionSort (mLe now) [a, b])) =
      [fallbackColumns.foldl (fillStep [a, b]) a]
    rw [hsortAB, hdedup, fillFold_singleton]
  · show fallbackColumns.foldl (fillColumn (List.insertionSort (mLe now) [b, a]))
        (dedupByKey [] (List.insertionSort (mLe now) [b, a])) =
      [fallbackColumns.foldl (fillStep [a, b]) a]
    rw [hsortBA, hdedup, fillFold_singleton]
  · have h := fillFold_hasData_stable [a, b] FieldId.qualification fallbackColumns a hqualA
    have h' : FVal.str (fallbackColumns.foldl (fillStep [a, b]) a).qualification =
        FVal.str a.qualification := h
    rw [FVal.str.injEq] at h'
    exact h'
  · have hfilter : [a, b].filter (fun r => r.license_key = a.license_key) = [a, b] := by
      simp [List.filter_cons, hkey]
    have hfind : (List.map (getF FieldId.category) [a, b]).find? hasData =
        some (FVal.str b.category) := by
      rw [List.map_cons, List.map_cons, List.map_nil,
        List.find?_cons_of_neg _ (by rw [hcatA]; decide),
        List.find?_cons_of_pos _ hcatB]
      rfl
    have hfb : fallbackVal [a, b] FieldId.category a.license_key = FVal.str b.category := by
      unfold fallbackVal
      rw [hfilter, hfind]
      rfl
    have h := fillFold_fills [a, b] FieldId.category
      [FieldId.registration_date, FieldId.first_issue_date, FieldId.issue_date,
       FieldId.expiry_date, FieldId.qualification]
      [FieldId.continuation_status, FieldId.next_stage_label, FieldId.next_exam_period,
       FieldId.next_procedure_status, FieldId.name, FieldId.display_name,
       FieldId.employee_id, FieldId.birth_year_west] a hcatA (by rw [hfb]; exact hcatB)
      (by decide)
    rw [hfb] at h
    have h' : FVal.str (fallbackColumns.foldl (fillStep [a, b]) a).category =
        FVal.str b.category := h
    rw [FVal.str.injEq] at h'
    exact h'

/-- Witness for C7 on concrete rows: an ingest row with qualification
`TIG` and a manual row with category `JIS` merge into one row carrying
both. -/
theorem c7_mergeFieldPreservation_witness :
    srcRank c7RowA.source < srcRank c7RowB.source ∧
    ∃ m : MRow, materializeCore 0 [c7RowA, c7RowB] = [m] ∧
      materializeCore 0 [c7RowB, c7RowA] = [m] ∧
      m.qualification = c7RowA.qualification ∧ m.category = c7RowB.category :=
  ⟨by decide,
   c7_mergeFieldPreservation 0 c7RowA c7RowB (by decide) (by decide) (by decide)
     (by decide) (by decide)⟩

/-! ### Idempotence machinery -/

lemma setPayload_idem (a : Assignment) (r : Rec) :
    setPayload (setPayload a r) r = setPayload a r := rfl

lemma ingest_unfold (df : List Rec) (d : Int) (st : Store) :
    ingestSnapshotDf df d st =
      closeMissing d (currentKeysOf df)
        { ((normalizeSnapshot df).foldl (stepRow (openMOf st df) d)
            (ensurePersons (sortedNames ((normalizeSnapshot df).filterMap (·.name)))
              (recordSnapshot (normalizeSnapshot df) d st), [])).1 with
          assignments :=
            ((normalizeSnapshot df).foldl (stepRow (openMOf st df) d)
                (ensurePersons (sortedNames ((normalizeSnapshot df).filterMap (·.name)))
                  (recordSnapshot (normalizeSnapshot df) d st), [])).1.assignments ++
              ((normalizeSnapshot df).foldl (stepRow (openMOf st df) d)
                  (ensurePersons (sortedNames ((normalizeSnapshot df).filterMap (·.name)))
                    (recordSnapshot (normalizeSnapshot df) d st), [])).2 } := by
  have hst2assign :
      (ensurePersons (sortedNames ((normalizeSnapshot df).filterMap (·.name)))
          (recordSnapshot (normalizeSnapshot df) d st)).assignments = st.assignments :=
    (ensurePersons_frame _ _).1
  have hopenM :
      (fun rk =>
        if rk ∈ (normalizeSnapshot df).map recordKey then
          openAssignFor
            (ensurePersons (sortedNames ((normalizeSnapshot df).filterMap (·.name)))
              (recordSnapshot (normalizeSnapshot df) d st)).assignments rk
        else none) = openMOf st df := by
    funext rk
    rw [hst2assign]
    rfl
  unfold ingestSnapshotDf
  dsimp only
  rw [hopenM]
  rfl

lemma openFold_stop (rk : String) :
    ∀ (l : List Assignment) (acc : Option Nat),
      (∀ a ∈ l, ¬(a.valid_to = none ∧ a.rec_key = rk)) →
      l.foldl
          (fun acc a => if a.valid_to = none ∧ a.rec_key = rk then some a.assign_id else acc)
          acc = acc := by
  intro l
  induction l with
  | nil => intro acc _; rfl
  | cons x l ih =>
      intro acc h
      rw [List.foldl_cons, if_neg (h x (List.mem_cons_self x l))]
      exact ih acc (fun a ha => h a (List.mem_cons_of_mem x ha))

lemma openAssignFor_append_right_none (l₁ l₂ : List Assignment) (rk : String)
    (h : ∀ a ∈ l₂, ¬(a.valid_to = none ∧ a.rec_key = rk)) :
    openAssignFor (l₁ ++ l₂) rk = openAssignFor l₁ rk := by
  unfold openAssignFor
  rw [List.foldl_append]
  exact openFold_stop rk l₂ _ h

lemma openFold_map_congr (rk : String) (g : Assignment → Assignment) :
    ∀ l : List Assignment,
      (∀ a ∈ l, (g a).assign_id = a.assign_id) →
      (∀ a ∈ l, (((g a).valid_to = none ∧ (g a).rec_key = rk) ↔
        (a.valid_to = none ∧ a.rec_key = rk))) →
      ∀ acc : Option Nat,
        (l.map g).foldl
            (fun acc a => if a.valid_to = none ∧ a.rec_key = rk then some a.assign_id else acc)
            acc =
          l.foldl
            (fun acc a => if a.valid_to = none ∧ a.rec_key = rk then some a.assign_id else acc)
            acc := by
  intro l
  induction l with
  | nil => intro _ _ acc; rfl
  | cons x l ih =>
      intro hid hcond acc
      rw [List.map_cons, List.foldl_cons, List.foldl_cons]
      by_cases hx : x.valid_to = none ∧ x.rec_key = rk
      · rw [if_pos ((hcond x (List.mem_cons_self x l)).mpr hx), if_pos hx,
          hid x (List.mem_cons_self x l)]
        exact ih (fun a ha => hid a (List.mem_cons_of_mem x ha))
          (fun a ha => hcond a (List.mem_cons_of_mem x ha)) _
      · rw [if_neg (fun hc => hx ((hcond x (List.mem_cons_self x l)).mp hc)), if_neg hx]
        exact ih (fun a ha => hid a (List.mem_cons_of_mem x ha))
          (fun a ha => hcond a (List.mem_cons_of_mem x ha)) _

lemma openAssignFor_map_congr (l : List Assignment) (g : Assignment → Assignment) (rk : String)
    (hid : ∀ a ∈ l, (g a).assign_id = a.assign_id)
    (hcond : ∀ a ∈ l, (((g a).valid_to = none ∧ (g a).rec_key = rk) ↔
      (a.valid_to = none ∧ a.rec_key = rk))) :
    openAssignFor (l.map g) rk = openAssignFor l rk := by
  unfold openAssignFor
  exact openFold_map_congr rk g l hid hcond none

lemma elemFold_unique_update (st : Store) (df : List Rec)
    (hnd : (st.assignments.map (·.assign_id)).Nodup)
    (hkeys : ((normalizeSnapshot df).map recordKey).Nodup)
    (r : Rec) (hr : r ∈ normalizeSnapshot df)
    (a : Assignment) (ha : a ∈ st.assignments)
    (hopenM : openMOf st df (recordKey r) = some a.assign_id) :
    elemFold (openMOf st df) (normalizeSnapshot df) a = setPayload a r := by
  have hkey : a.rec_key = recordKey r :=
    openMOf_target_key st df hnd a ha (recordKey r) hopenM
  obtain ⟨l1, l2, hsplit⟩ := List.append_of_mem hr
  have hkeys' := hkeys
  rw [hsplit, List.map_append, List.map_cons] at hkeys'
  have hnotmem : ¬ recordKey r ∈ l1.map recordKey ∧ ¬ recordKey r ∈ l2.map recordKey := by
    have h1 := (List.nodup_middle).mp (by simpa using hkeys')
    rw [List.nodup_cons] at h1
    constructor
    · intro hc
      exact h1.1 (List.mem_append.mpr (Or.inl hc))
    · intro hc
      exact h1.1 (List.mem_append.mpr (Or.inr hc))
  have hne1 : ∀ r' ∈ l1, openMOf st df (recordKey r') ≠ some a.assign_id := by
    intro r' hr' hc
    have hkk : recordKey r = recordKey r' := by
      rw [← hkey]
      exact openMOf_target_key st df hnd a ha (recordKey r') hc
    refine hnotmem.1 ?_
    rw [hkk]
    exact List.mem_map_of_mem recordKey hr'
  have hne2 : ∀ r' ∈ l2, openMOf st df (recordKey r') ≠ some a.assign_id := by
    intro r' hr' hc
    have hkk : recordKey r = recordKey r' := by
      rw [← hkey]
      exact openMOf_target_key st df hnd a ha (recordKey r') hc
    refine hnotmem.2 ?_
    rw [hkk]
    exact List.mem_map_of_mem recordKey hr'
  rw [hsplit, elemFold_append, elemFold_skip (openMOf st df) l1 a.assign_id hne1 a rfl,
    elemFold_cons]
  have hstep : elemStep (openMOf st df) r a = setPayload a r := by
    unfold elemStep
    rw [hopenM]
    show (if a.assign_id = a.assign_id then setPayload a r else a) = setPayload a r
    rw [if_pos rfl]
  rw [hstep]
  exact elemFold_skip (openMOf st df) l2 a.assign_id hne2 (setPayload a r) rfl

lemma getOrCreatePerson_persons_append (st : Store) (nm : String) :
    ∃ l, (getOrCreatePerson st nm).2.persons = st.persons ++ l := by
  rcases hfind : st.persons.find? (fun p => p.name_key = nameKeyStr nm) with _ | p
  · refine ⟨[⟨st.person_seq + 1, nm, nameKeyStr nm⟩], ?_⟩
    simp [getOrCreatePerson, hfind]
  · refine ⟨[], ?_⟩
    simp [getOrCreatePerson, hfind]

lemma ensurePersons_persons_append (names : List String) :
    ∀ st : Store, ∃ l, (ensurePersons names st).persons = st.persons ++ l := by
  induction names with
  | nil => intro st; exact ⟨[], by simp [ensurePersons]⟩
  | cons nm names ih =>
      intro st
      have hstep : ensurePersons (nm :: names) st =
          ensurePersons names (if pyStrip nm = "" then st else (getOrCreatePerson st nm).2) :=
        rfl
      rw [hstep]
      by_cases h : pyStrip nm = ""
      · rw [if_pos h]
        exact ih st
      · rw [if_neg h]
        obtain ⟨l₁, h₁⟩ := getOrCreatePerson_persons_append st nm
        obtain ⟨l₂, h₂⟩ := ih (getOrCreatePerson st nm).2
        refine ⟨l₁ ++ l₂, ?_⟩
        rw [h₂, h₁, List.append_assoc]

lemma foldStep_persons_append (openM : String → Option Nat) (d : Int) :
    ∀ (rows : List Rec) (s : Store) (b : List Assignment),
      ∃ l, ((rows.foldl (stepRow openM d) (s, b)).1).persons = s.persons ++ l := by
  intro rows
  induction rows with
  | nil =>
      intro s b
      exact ⟨[], by simp⟩
  | cons r rows ih =>
      intro s b
      rw [List.foldl_cons]
      rcases ho : openM (recordKey r) with _ | aid
      · by_cases hnm : pyStrip (r.name.getD "") = ""
        · rw [stepRow_skip openM d s b r ho hnm]
          exact ih s b
        · rw [stepRow_insert openM d s b r ho hnm]
          obtain ⟨l₂, h₂⟩ := ih
            { (getOrCreatePerson s (r.name.getD "")).2 with
              assign_seq := (getOrCreatePerson s (r.name.getD "")).2.assign_seq + 1 }
            (b ++ [newAssign ((getOrCreatePerson s (r.name.getD "")).2.assign_seq + 1)
              (getOrCreatePerson s (r.name.getD "")).1 r d])
          obtain ⟨l₁, h₁⟩ := getOrCreatePerson_persons_append s (r.name.getD "")
          refine ⟨l₁ ++ l₂, ?_⟩
          rw [h₂]
          show (getOrCreatePerson s (r.name.getD "")).2.persons ++ l₂ =
            s.persons ++ (l₁ ++ l₂)
          rw [h₁, List.append_assoc]
      · rw [stepRow_update openM d s b r aid ho]
        obtain ⟨l, hl⟩ := ih
          { s with assignments :=
              s.assignments.map (fun a => if a.assign_id = aid then setPayload a r else a) } b
        exact ⟨l, hl⟩

lemma find?_isSome_append {α : Type} (p : α → Bool) (l₂ : List α) :
    ∀ l₁ : List α, (l₁.find? p).isSome → ((l₁ ++ l₂).find? p).isSome := by
  intro l₁
  induction l₁ with
  | nil => intro h; simp at h
  | cons x l ih =>
      intro h
      by_cases hx : p x = true
      · rw [List.cons_append, List.find?_cons_of_pos _ hx]
        rfl
      · rw [List.cons_append, List.find?_cons_of_neg _ hx]
        apply ih
        rw [List.find?_cons_of_neg _ hx] at h
        exact h

lemma find?_append_some_right {α : Type} (p : α → Bool) (l₂ : List α)
    (h2 : (l₂.find? p).isSome) :
    ∀ l₁ : List α, l₁.find? p = none → ((l₁ ++ l₂).find? p).isSome := by
  intro l₁
  induction l₁ with
  | nil => intro _; simpa using h2
  | cons x l ih =>
      intro h1
      by_cases hx : p x = true
      · rw [List.find?_cons_of_pos _ hx] at h1
        exact absurd h1 (by simp)
      · rw [List.find?_cons_of_neg _ hx] at h1
        rw [List.cons_append, List.find?_cons_of_neg _ hx]
        exact ih h1

lemma getOrCreatePerson_self_finds (st : Store) (nm : String) :
    (((getOrCreatePerson st nm).2).persons.find?
      (fun p => p.name_key = nameKeyStr nm)).isSome := by
  rcases hfind : st.persons.find? (fun p => p.name_key = nameKeyStr nm) with _ | p
  · have hpers : (getOrCreatePerson st nm).2.persons =
        st.persons ++ [⟨st.person_seq + 1, nm, nameKeyStr nm⟩] := by
      simp [getOrCreatePerson, hfind]
    rw [hpers]
    have hfx : (List.find? (fun q => q.name_key = nameKeyStr nm)
        [(⟨st.person_seq + 1, nm, nameKeyStr nm⟩ : Person)]) =
        some ⟨st.person_seq + 1, nm, nameKeyStr nm⟩ :=
      List.find?_cons_of_pos [] (decide_eq_true rfl)
    apply find?_append_some_right _ _ ?_ st.persons hfind
    rw [hfx]
    rfl
  · have hpers : (getOrCreatePerson st nm).2 = st := by
      simp [getOrCreatePerson, hfind]
    rw [hpers, hfind]
    rfl

lemma ensurePersons_has (names : List String) :
    ∀ (st : Store) (nm : String), nm ∈ names → ¬ pyStrip nm = "" →
      (((ensurePersons names st).persons.find?
        (fun p => p.name_key = nameKeyStr nm)).isSome) := by
  induction names with
  | nil =>
      intro st nm h _
      simp at h
  | cons nm' names ih =>
      intro st nm hmem hnm
      have hstep : ensurePersons (nm' :: names) st =
          ensurePersons names (if pyStrip nm' = "" then st else (getOrCreatePerson st nm').2) :=
        rfl
      rw [hstep]
      rcases List.mem_cons.mp hmem with heq | hmem'
      · subst heq
        rw [if_neg hnm]
        obtain ⟨l, hl⟩ := ensurePersons_persons_append names (getOrCreatePerson st nm).2
        rw [hl]
        exact find?_isSome_append _ l _ (getOrCreatePerson_self_finds st nm)
      · exact ih _ nm hmem' hnm

lemma ensurePersons_id (names : List String) :
    ∀ st : Store,
      (∀ nm ∈ names, ¬ pyStrip nm = "" →
        ((st.persons.find? (fun p => p.name_key = nameKeyStr nm)).isSome)) →
      ensurePersons names st = st := by
  induction names with
  | nil => intro st _; rfl
  | cons nm names ih =>
      intro st hall
      have hstep : ensurePersons (nm :: names) st =
          ensurePersons names (if pyStrip nm = "" then st else (getOrCreatePerson st nm).2) :=
        rfl
      rw [hstep]
      by_cases hnm : pyStrip nm = ""
      · rw [if_pos hnm]
        exact ih st (fun nm' h' hs => hall nm' (List.mem_cons_of_mem nm h') hs)
      · rw [if_neg hnm]
        have hfound := hall nm (List.mem_cons_self nm names) hnm
        obtain ⟨p, hp⟩ := Option.isSome_iff_exists.mp hfound
        have hgocp : (getOrCreatePerson st nm).2 = st := by
          simp [getOrCreatePerson, hp]
        rw [hgocp]
        exact ih st (fun nm' h' hs => hall nm' (List.mem_cons_of_mem nm h') hs)

lemma ingest_second_stable (df : List Rec) (d : Int) (st : Store)
    (hwf : StoreWF st)
    (hkeys : ((normalizeSnapshot df).map recordKey).Nodup) :
    (∀ r ∈ normalizeSnapshot df, ¬ pyStrip (r.name.getD "") = "" →
      ¬ openMOf (ingestSnapshotDf df d st) df (recordKey r) = none) ∧
    (∀ a ∈ (ingestSnapshotDf df d st).assignments,
      elemFold (openMOf (ingestSnapshotDf df d st) df) (normalizeSnapshot df) a = a) ∧
    (∀ a ∈ (ingestSnapshotDf df d st).assignments,
      closeF d (currentKeysOf df) a = a) := by
  obtain ⟨hnd, hbound⟩ := hwf
  obtain ⟨t, heq, hseq, ht, hsub, hpw, hcov⟩ := ingest_assignments_char df d st hnd hbound
  have hnd1 : ((ingestSnapshotDf df d st).assignments.map (·.assign_id)).Nodup :=
    (ingest_wf df d st ⟨hnd, hbound⟩).1
  have hTt : t.map (closeF d (currentKeysOf df)) = t := by
    have h1 : t.map (closeF d (currentKeysOf df)) = t.map (fun a => a) := by
      apply List.map_congr_left
      intro a ha
      obtain ⟨p1, _, _, _, _, r', hr', hk', _⟩ := ht a ha
      unfold closeF
      rw [if_neg]
      intro hc
      exact hc.2 (by rw [hk']; exact List.mem_map_of_mem recordKey hr')
    rw [h1]
    exact List.map_id' t
  have heqt : (ingestSnapshotDf df d st).assignments =
      (st.assignments.map (elemFold (openMOf st df) (normalizeSnapshot df))).map
        (closeF d (currentKeysOf df)) ++ t := by
    rw [heq, hTt]
  have hgkey : ∀ a₀ : Assignment,
      (closeF d (currentKeysOf df)
        (elemFold (openMOf st df) (normalizeSnapshot df) a₀)).rec_key = a₀.rec_key :=
    fun a₀ => by rw [(closeF_skel _ _ _).2.2.1, (elemFold_skel _ _ _).2.2.1]
  have hgid : ∀ a₀ : Assignment,
      (closeF d (currentKeysOf df)
        (elemFold (openMOf st df) (normalizeSnapshot df) a₀)).assign_id = a₀.assign_id :=
    fun a₀ => by rw [(closeF_skel _ _ _).1, (elemFold_skel _ _ _).1]
  have hgopen : ∀ a₀ : Assignment, a₀.rec_key ∈ currentKeysOf df →
      (closeF d (currentKeysOf df)
        (elemFold (openMOf st df) (normalizeSnapshot df) a₀)).valid_to = a₀.valid_to := by
    intro a₀ hk
    rw [closeF_valid_to, if_neg]
    · exact (elemFold_skel _ _ _).2.2.2.2
    · intro hc
      apply hc.2
      rw [(elemFold_skel (openMOf st df) (normalizeSnapshot df) a₀).2.2.1]
      exact hk
  have hgopen' : ∀ a₀ : Assignment,
      (closeF d (currentKeysOf df)
        (elemFold (openMOf st df) (normalizeSnapshot df) a₀)).valid_to = none →
      a₀.valid_to = none := by
    intro a₀ h
    rw [closeF_valid_to] at h
    by_cases hc : (elemFold (openMOf st df) (normalizeSnapshot df) a₀).valid_to = none ∧
        ¬ (elemFold (openMOf st df) (normalizeSnapshot df) a₀).rec_key ∈ currentKeysOf df
    · rw [if_pos hc] at h
      exact absurd h (by simp)
    · rw [if_neg hc] at h
      rw [← (elemFold_skel (openMOf st df) (normalizeSnapshot df) a₀).2.2.2.2]
      exact h
  have hMopenK : ∀ a₀ : Assignment,
      (closeF d (currentKeysOf df)
        (elemFold (openMOf st df) (normalizeSnapshot df) a₀)).valid_to = none →
      a₀.rec_key ∈ currentKeysOf df := by
    intro a₀ h
    rw [closeF_valid_to] at h
    by_cases hc : (elemFold (openMOf st df) (normalizeSnapshot df) a₀).valid_to = none ∧
        ¬ (elemFold (openMOf st df) (normalizeSnapshot df) a₀).rec_key ∈ currentKeysOf df
    · rw [if_pos hc] at h
      exact absurd h (by simp)
    · rcases Classical.em
          ((elemFold (openMOf st df) (normalizeSnapshot df) a₀).rec_key ∈ currentKeysOf df)
        with hk | hk
      · rw [(elemFold_skel (openMOf st df) (normalizeSnapshot df) a₀).2.2.1] at hk
        exact hk
      · rw [if_neg hc] at h
        exact absurd ⟨h, hk⟩ hc
  have hopenM1 : ∀ rk, rk ∈ currentKeysOf df → ¬ openMOf st df rk = none →
      openAssignFor (ingestSnapshotDf df d st).assignments rk =
        openAssignFor st.assignments rk := by
    intro rk hk h0
    have hnot : ∀ a ∈ t, ¬(a.valid_to = none ∧ a.rec_key = rk) := by
      intro a ha hc
      obtain ⟨_, _, p3, _⟩ := ht a ha
      rw [hc.2] at p3
      exact h0 p3
    rw [heqt, openAssignFor_append_right_none _ t rk hnot, List.map_map]
    apply openAssignFor_map_congr
    · intro a _
      exact hgid a
    · intro a _
      simp only [Function.comp_apply]
      constructor
      · rintro ⟨hvopen, hvkey⟩
        exact ⟨hgopen' a hvopen, by rw [← hgkey a]; exact hvkey⟩
      · rintro ⟨haopen, hakey⟩
        refine ⟨?_, by rw [hgkey a]; exact hakey⟩
        rw [hgopen a (by rw [hakey]; exact hk)]
        exact haopen
  refine ⟨?_, ?_, ?_⟩
  · intro r hr hnm hnone
    have hK : recordKey r ∈ currentKeysOf df := List.mem_map_of_mem recordKey hr
    unfold openMOf at hnone
    rw [if_pos hK] at hnone
    rw [openAssignFor_eq_none_iff] at hnone
    rcases h0 : openMOf st df (recordKey r) with _ | aid
    · obtain ⟨a, hat, hak⟩ := hcov r hr h0 hnm
      obtain ⟨p1, _⟩ := ht a hat
      refine hnone a ?_ ⟨p1, hak⟩
      rw [heqt]
      exact List.mem_append_right _ hat
    · have h0' : openAssignFor st.assignments (recordKey r) = some aid := by
        unfold openMOf at h0
        rw [if_pos hK] at h0
        exact h0
      obtain ⟨a₀, ha₀, q1, q2, q3⟩ :=
        openAssignFor_eq_some st.assignments (recordKey r) aid h0'
      refine hnone (closeF d (currentKeysOf df)
          (elemFold (openMOf st df) (normalizeSnapshot df) a₀)) ?_ ⟨?_, ?_⟩
      · rw [heqt]
        exact List.mem_append_left _ (List.mem_map_of_mem _ (List.mem_map_of_mem _ ha₀))
      · rw [hgopen a₀ (by rw [q2]; exact hK)]
        exact q1
      · rw [hgkey a₀]
        exact q2
  · intro a ha
    by_cases htarget : ∃ r ∈ normalizeSnapshot df,
        openMOf (ingestSnapshotDf df d st) df (recordKey r) = some a.assign_id
    · obtain ⟨r, hr, ho₁⟩ := htarget
      have hK : recordKey r ∈ currentKeysOf df := List.mem_map_of_mem recordKey hr
      have hkey : a.rec_key = recordKey r :=
        openMOf_target_key (ingestSnapshotDf df d st) df hnd1 a ha (recordKey r) ho₁
      have hupd :=
        elemFold_unique_update (ingestSnapshotDf df d st) df hnd1 hkeys r hr a ha ho₁
      rw [hupd]
      have ho₁' : openAssignFor (ingestSnapshotDf df d st).assignments (recordKey r) =
          some a.assign_id := by
        unfold openMOf at ho₁
        rw [if_pos hK] at ho₁
        exact ho₁
      have haopen : a.valid_to = none := by
        obtain ⟨b, hb, b1, b2, b3⟩ := openAssignFor_eq_some _ _ _ ho₁'
        have hba : b = a := List.inj_on_of_nodup_map hnd1 hb ha b3
        rw [← hba]
        exact b1
      have hmem := ha
      rw [heqt] at hmem
      rcases List.mem_append.mp hmem with hM | hT
      · obtain ⟨b₀, hb₀, hba⟩ := List.mem_map.mp hM
        obtain ⟨a₀, ha₀, hab⟩ := List.mem_map.mp hb₀
        have haeq : a = closeF d (currentKeysOf df)
            (elemFold (openMOf st df) (normalizeSnapshot df) a₀) := by
          rw [← hba, ← hab]
        have hk₀ : a₀.rec_key = recordKey r := by
          rw [← hgkey a₀, ← haeq]
          exact hkey
        have ha₀open : a₀.valid_to = none := by
          apply hgopen' a₀
          rw [← haeq]
          exact haopen
        have h0 : ¬ openAssignFor st.assignments (recordKey r) = none := by
          rw [openAssignFor_eq_none_iff]
          intro hall
          exact hall a₀ ha₀ ⟨ha₀open, hk₀⟩
        rcases hoa : openAssignFor st.assignments (recordKey r) with _ | aid₀
        · exact absurd hoa h0
        · have h0' : ¬ openMOf st df (recordKey r) = none := by
            unfold openMOf
            rw [if_pos hK, hoa]
            simp
          have hchain := hopenM1 (recordKey r) hK h0'
          have haid : aid₀ = a.assign_id := by
            rw [hchain, hoa] at ho₁'
            exact Option.some.inj ho₁'
          have hid₀ : a₀.assign_id = a.assign_id := by
            rw [← hgid a₀, ← haeq]
          have ho₀ : openMOf st df (recordKey r) = some a₀.assign_id := by
            unfold openMOf
            rw [if_pos hK, hoa, haid, hid₀]
          have hfold₀ := elemFold_unique_update st df hnd hkeys r hr a₀ ha₀ ho₀
          have haeq2 : a = setPayload a₀ r := by
            rw [haeq, hfold₀]
            unfold closeF
            rw [if_neg]
            intro hc
            refine hc.2 ?_
            show a₀.rec_key ∈ currentKeysOf df
            rw [hk₀]
            exact hK
          rw [haeq2]
          exact setPayload_idem a₀ r
      · obtain ⟨_, _, _, _, _, r', hr', hk', hsp⟩ := ht a hT
        have hrr : r' = r :=
          List.inj_on_of_nodup_map hkeys hr' hr (by rw [← hk']; exact hkey)
        rw [← hrr]
        exact hsp
    · push_neg at htarget
      exact elemFold_skip (openMOf (ingestSnapshotDf df d st) df) (normalizeSnapshot df)
        a.assign_id (fun r' hr' => htarget r' hr') a rfl
  · intro a ha
    unfold closeF
    rw [if_neg]
    rintro ⟨haopen, hnk⟩
    have hmem := ha
    rw [heqt] at hmem
    rcases List.mem_append.mp hmem with hM | hT
    · obtain ⟨b₀, hb₀, hba⟩ := List.mem_map.mp hM
      obtain ⟨a₀, ha₀, hab⟩ := List.mem_map.mp hb₀
      have haeq : a = closeF d (currentKeysOf df)
          (elemFold (openMOf st df) (normalizeSnapshot df) a₀) := by
        rw [← hba, ← hab]
      apply hnk
      have hk := hMopenK a₀ (by rw [← haeq]; exact haopen)
      rw [haeq, hgkey a₀]
      exact hk
    · obtain ⟨_, _, _, _, _, r', hr', hk', _⟩ := ht a hT
      exact hnk (by rw [hk']; exact List.mem_map_of_mem recordKey hr')

/-- Claim C10: re-ingesting the same snapshot at the same date (keys
pairwise distinct) leaves the persons and assignments tables exactly as
after the first ingestion; only a new snapshot row and its audit
snapshot-records rows are appended. -/
theorem c10_ingestIdempotence (df : List Rec) (d : Int) (st : Store)
    (hwf : StoreWF st)
    (hkeys : ((normalizeSnapshot df).map recordKey).Nodup) :
    (ingestSnapshotDf df d (ingestSnapshotDf df d st)).persons =
      (ingestSnapshotDf df d st).persons ∧
    (ingestSnapshotDf df d (ingestSnapshotDf df d st)).assignments =
      (ingestSnapshotDf df d st).assignments ∧
    (ingestSnapshotDf df d (ingestSnapshotDf df d st)).snapshots =
      (ingestSnapshotDf df d st).snapshots ++
        [⟨(ingestSnapshotDf df d st).snapshot_seq + 1, d,
          contentHash (normalizeSnapshot df), (normalizeSnapshot df).length⟩] ∧
    (ingestSnapshotDf df d (ingestSnapshotDf df d st)).snapshot_records =
      (ingestSnapshotDf df d st).snapshot_records ++
        (normalizeSnapshot df).map
          (fun r => ⟨(ingestSnapshotDf df d st).snapshot_seq + 1, recordKey r, r⟩) := by
  obtain ⟨hopenAll, hfoldId, hcloseId⟩ := ingest_second_stable df d st hwf hkeys
  have hwf1 : StoreWF (ingestSnapshotDf df d st) := ingest_wf df d st hwf
  have hnoins : ∀ r ∈ normalizeSnapshot df,
      openMOf (ingestSnapshotDf df d st) df (recordKey r) = none →
      pyStrip (r.name.getD "") = "" := by
    intro r hr ho
    by_cases hnm : pyStrip (r.name.getD "") = ""
    · exact hnm
    · exact absurd ho (hopenAll r hr hnm)
  have hfold := foldStep_noInsert (openMOf (ingestSnapshotDf df d st) df) d
    (normalizeSnapshot df)
    (ensurePersons (sortedNames ((normalizeSnapshot df).filterMap (·.name)))
      (recordSnapshot (normalizeSnapshot df) d (ingestSnapshotDf df d st))) [] hnoins
  have hE : (ensurePersons (sortedNames ((normalizeSnapshot df).filterMap (·.name)))
      (recordSnapshot (normalizeSnapshot df) d (ingestSnapshotDf df d st))).assignments =
      (ingestSnapshotDf df d st).assignments :=
    (ensurePersons_frame _ _).1
  have hmapid : (ingestSnapshotDf df d st).assignments.map
      (elemFold (openMOf (ingestSnapshotDf df d st) df) (normalizeSnapshot df)) =
      (ingestSnapshotDf df d st).assignments := by
    have h1 : (ingestSnapshotDf df d st).assignments.map
        (elemFold (openMOf (ingestSnapshotDf df d st) df) (normalizeSnapshot df)) =
        (ingestSnapshotDf df d st).assignments.map (fun a => a) :=
      List.map_congr_left (fun a ha => hfoldId a ha)
    rw [h1]
    exact List.map_id' _
  have hstep2 : ingestSnapshotDf df d (ingestSnapshotDf df d st) =
      closeMissing d (currentKeysOf df)
        { ensurePersons (sortedNames ((normalizeSnapshot df).filterMap (·.name)))
            (recordSnapshot (normalizeSnapshot df) d (ingestSnapshotDf df d st)) with
          assignments := (ingestSnapshotDf df d st).assignments } := by
    rw [ingest_unfold df d (ingestSnapshotDf df d st), hfold]
    show closeMissing d (currentKeysOf df)
        { ensurePersons (sortedNames ((normalizeSnapshot df).filterMap (·.name)))
            (recordSnapshot (normalizeSnapshot df) d (ingestSnapshotDf df d st)) with
          assignments :=
            (ensurePersons (sortedNames ((normalizeSnapshot df).filterMap (·.name)))
                (recordSnapshot (normalizeSnapshot df) d
                  (ingestSnapshotDf df d st))).assignments.map
              (elemFold (openMOf (ingestSnapshotDf df d st) df) (normalizeSnapshot df))
            ++ [] } = _
    rw [hE, hmapid, List.append_nil]
  have hndY : (({ ensurePersons (sortedNames ((normalizeSnapshot df).filterMap (·.name)))
        (recordSnapshot (normalizeSnapshot df) d (ingestSnapshotDf df d st)) with
      assignments := (ingestSnapshotDf df d st).assignments } : Store).assignments.map
        (·.assign_id)).Nodup := hwf1.1
  have hassign2 : (ingestSnapshotDf df d (ingestSnapshotDf df d st)).assignments =
      (ingestSnapshotDf df d st).assignments := by
    rw [hstep2, closeMissing_char d (currentKeysOf df) _ hndY]
    show (ingestSnapshotDf df d st).assignments.map (closeF d (currentKeysOf df)) = _
    have h1 : (ingestSnapshotDf df d st).assignments.map (closeF d (currentKeysOf df)) =
        (ingestSnapshotDf df d st).assignments.map (fun a => a) :=
      List.map_congr_left (fun a ha => hcloseId a ha)
    rw [h1]
    exact List.map_id' _
  have hfindAll : ∀ nm ∈ sortedNames ((normalizeSnapshot df).filterMap (·.name)),
      ¬ pyStrip nm = "" →
      (((ingestSnapshotDf df d st).persons.find?
        (fun p => p.name_key = nameKeyStr nm)).isSome) := by
    intro nm hnm hs
    obtain ⟨lf, hlf⟩ := foldStep_persons_append (openMOf st df) d (normalizeSnapshot df)
      (ensurePersons (sortedNames ((normalizeSnapshot df).filterMap (·.name)))
        (recordSnapshot (normalizeSnapshot df) d st)) []
    have hp1 : (ingestSnapshotDf df d st).persons =
        (ensurePersons (sortedNames ((normalizeSnapshot df).filterMap (·.name)))
          (recordSnapshot (normalizeSnapshot df) d st)).persons ++ lf := by
      rw [ingest_unfold df d st]
      exact hlf
    rw [hp1]
    apply find?_isSome_append
    exact ensurePersons_has (sortedNames ((normalizeSnapshot df).filterMap (·.name)))
      (recordSnapshot (normalizeSnapshot df) d st) nm hnm hs
  have hEid : ensurePersons (sortedNames ((normalizeSnapshot df).filterMap (·.name)))
      (recordSnapshot (normalizeSnapshot df) d (ingestSnapshotDf df d st)) =
      recordSnapshot (normalizeSnapshot df) d (ingestSnapshotDf df d st) :=
    ensurePersons_id (sortedNames ((normalizeSnapshot df).filterMap (·.name)))
      (recordSnapshot (normalizeSnapshot df) d (ingestSnapshotDf df d st))
      (fun nm hnm hs => hfindAll nm hnm hs)
  have hpersons2 : (ingestSnapshotDf df d (ingestSnapshotDf df d st)).persons =
      (ingestSnapshotDf df d st).persons := by
    rw [hstep2]
    show (ensurePersons (sortedNames ((normalizeSnapshot df).filterMap (·.name)))
        (recordSnapshot (normalizeSnapshot df) d (ingestSnapshotDf df d st))).persons =
      (ingestSnapshotDf df d st).persons
    rw [hEid]
    rfl
  have hsnap2 : (ingestSnapshotDf df d (ingestSnapshotDf df d st)).snapshots =
      (ingestSnapshotDf df d st).snapshots ++
        [⟨(ingestSnapshotDf df d st).snapshot_seq + 1, d,
          contentHash (normalizeSnapshot df), (normalizeSnapshot df).length⟩] := by
    rw [hstep2]
    show (ensurePersons (sortedNames ((normalizeSnapshot df).filterMap (·.name)))
        (recordSnapshot (normalizeSnapshot df) d (ingestSnapshotDf df d st))).snapshots = _
    rw [(ensurePersons_frame _ _).2.2.1]
    rfl
  have hrecs2 : (ingestSnapshotDf df d (ingestSnapshotDf df d st)).snapshot_records =
      (ingestSnapshotDf df d st).snapshot_records ++
        (normalizeSnapshot df).map
          (fun r => ⟨(ingestSnapshotDf df d st).snapshot_seq + 1, recordKey r, r⟩) := by
    rw [hstep2]
    show (ensurePersons (sortedNames ((normalizeSnapshot df).filterMap (·.name)))
        (recordSnapshot (normalizeSnapshot df) d
          (ingestSnapshotDf df d st))).snapshot_records = _
    rw [(ensurePersons_frame _ _).2.2.2]
    rfl
  exact ⟨hpersons2, hassign2, hsnap2, hrecs2⟩

/-- Witness for C10: re-ingesting `oooDf1` at day 0 changes neither the
persons nor the assignments table. -/
theorem c10_ingestIdempotence_witness :
    ((normalizeSnapshot oooDf1).map recordKey).Nodup ∧
    (ingestSnapshotDf oooDf1 0 (ingestSnapshotDf oooDf1 0 emptyStore)).persons =
      (ingestSnapshotDf oooDf1 0 emptyStore).persons ∧
    (ingestSnapshotDf oooDf1 0 (ingestSnapshotDf oooDf1 0 emptyStore)).assignments =
      (ingestSnapshotDf oooDf1 0 emptyStore).assignments :=
  ⟨by decide,
   (c10_ingestIdempotence oooDf1 0 emptyStore storeWF_empty (by decide)).1,
   (c10_ingestIdempotence oooDf1 0 emptyStore storeWF_empty (by decide)).2.1⟩

end Welding
